import Mathlib

/-!
Verification of the `mt_metadata` core (identity-keyed collections, the
Survey/Station/Run/Channel tree and the EMTF-XML transcoder) against its
natural-language specification.  The Python sources are shallowly embedded:
pure functions become Lean functions, in-place mutation becomes explicit
state passing, Python exceptions become `Except PyErr`, `logger` calls
become an explicit `List String` of emitted diagnostics, and numeric matrix
entries are modelled as exact rationals (the only numeric operation the
verified code performs on them is comparison with zero and min/max).
Timestamps are modelled as the ISO strings the source itself compares
lexicographically.
-/

set_option maxHeartbeats 1000000

namespace MtMeta

/-- The Python exception kinds raised by the embedded code. -/
inductive PyErr
  | typeError
  | valueError
  | attributeError
  | keyError
deriving DecidableEq, Repr

/-! ## `mt_metadata.utils.list_dict.ListDict`

An insertion-ordered key/value store backed by `OrderedDict`.  Keys are
`Option String` because `_get_key_from_object` returns `obj.id` verbatim,
and a Python object whose `id` attribute is `None` is then stored under the
`None` dictionary key. -/

/-- `OrderedDict.__setitem__`: replace the value in place if the key is
present (position preserved), otherwise append the pair at the end. -/
def odSet {α : Type} : List (Option String × α) → Option String → α → List (Option String × α)
  | [], k, v => [(k, v)]
  | (k', v') :: rest, k, v =>
      if k' = k then (k, v) :: rest else (k', v') :: odSet rest k v

/-- `OrderedDict.__getitem__` (as a total lookup returning `Option`):
the value at the first matching key. -/
def odGet {α : Type} : List (Option String × α) → Option String → Option α
  | [], _ => none
  | (k', v) :: rest, k => if k' == k then some v else odGet rest k

/-- The backing store of `ListDict`. -/
structure ListDict (α : Type) where
  home : List (Option String × α)
deriving DecidableEq, Repr

/-- `ListDict.keys()`. -/
def ListDict.keys {α : Type} (ld : ListDict α) : List (Option String) :=
  ld.home.map Prod.fst

/-- `ListDict.values()`. -/
def ListDict.values {α : Type} (ld : ListDict α) : List α :=
  ld.home.map Prod.snd

/-- `ListDict.extend`: `for key, value in other.items(): self._home[key] = value`. -/
def ldExtend {α : Type} (home other : List (Option String × α)) : List (Option String × α) :=
  other.foldl (fun acc p => odSet acc p.1 p.2) home

/-- A generic Python object as seen by `ListDict._get_key_from_object`:
the outer `Option` models `hasattr` (attribute presence), the inner
`Option` models the attribute's value being `None` or a string. -/
structure PyObj where
  id : Option (Option String)
  component : Option (Option String)
deriving DecidableEq, Repr

/-- `ListDict._get_key_from_object`: return `obj.id` whenever the object
has an `id` attribute (even when its value is `None`), else
`obj.component` whenever it has a `component` attribute, else raise
`TypeError`. -/
def getKeyFromObject (o : PyObj) : Except PyErr (Option String) :=
  match o.id with
  | some v => .ok v
  | none =>
      match o.component with
      | some v => .ok v
      | none => .error .typeError

/-- The key `ListDict.append` actually uses: the derived key, falling back
to `str(len(self.keys()))` when `_get_key_from_object` raises `TypeError`
(the exception is caught inside `append`). -/
def appendKey (o : PyObj) (n : Nat) : Option String :=
  match getKeyFromObject o with
  | .ok k => k
  | .error _ => some (toString n)

/-- `ListDict.append` for `PyObj` items: derive the key (with the
stringified-length fallback) and then `self._home[key] = obj`. -/
def ListDict.appendObj (ld : ListDict PyObj) (o : PyObj) : ListDict PyObj :=
  ⟨odSet ld.home (appendKey o ld.home.length) o⟩

/-- The key-derivation rule as the specification words it: `item.id` when
that value is non-null, else `item.component` when that attribute is
present, else the stringified current length.  (This definition follows
the spec's words, for comparison with `appendKey`, which follows the
source.) -/
def specClaimedKey (o : PyObj) (n : Nat) : Option String :=
  match o.id with
  | some (some v) => some v
  | _ =>
      match o.component with
      | some v => v
      | none => some (toString n)

/-! ## The timeseries entity model

From `src/mt_metadata/timeseries/{station,run}.py`.  The transfer-function
`Station`/`Run`/`Electric`/`Magnetic` classes consumed by the EMTF-XML
transcoder expose the identically-named accessors (they are not under
`src/`; the spec treats both as the one Canonical Metadata Tree), so a
single embedding serves both. -/

/-- The sentinel "unset" timestamp the source compares against. -/
def sentinelTime : String := "1980-01-01T00:00:00+00:00"

/-- `time_period` with its sentinel defaults.  `stop` is the source's `end`
attribute (a Lean keyword). -/
structure TimePeriod where
  start : String := sentinelTime
  stop : String := sentinelTime
deriving DecidableEq, Repr

/-- Instrument-shaped records (`sensor`, `data_logger`, EMTF `Instrument`):
`id`, `name`, `manufacturer`, `type`. -/
structure Instrument where
  id : Option String := none
  name : Option String := none
  manufacturer : Option String := none
  type : Option String := none
deriving DecidableEq, Repr

/-- Electrode terminal of an electric channel (`positive` / `negative`). -/
structure Electrode where
  id : Option String := none
  type : Option String := none
  manufacturer : Option String := none
  x : Option ℚ := none
  y : Option ℚ := none
  z : Option ℚ := none
  x2 : Option ℚ := none
  y2 : Option ℚ := none
  z2 : Option ℚ := none
deriving DecidableEq, Repr

/-- Channel `location` (x/y/z geometry). -/
structure ChannelLocation where
  x : Option ℚ := none
  y : Option ℚ := none
  z : Option ℚ := none
deriving DecidableEq, Repr

/-- The three channel classes (`Electric`, `Magnetic`, `Auxiliary`). -/
inductive ChannelKind
  | electric
  | magnetic
  | auxiliary
deriving DecidableEq, Repr

/-- A channel, polymorphic over the three classes via `kind` (the fields
the transcoder and the Run accessors touch). -/
structure Channel where
  kind : ChannelKind
  component : Option String := none
  time_period : TimePeriod := {}
  sensor : Instrument := {}
  positive : Electrode := {}
  negative : Electrode := {}
  location : ChannelLocation := {}
  measurement_azimuth : Option ℚ := none
  translated_azimuth : Option ℚ := none
  dipole_length : Option ℚ := none
deriving DecidableEq, Repr

/-- A run (the fields the claims touch). -/
structure Run where
  id : Option String := none
  sample_rate : Option ℚ := none
  time_period : TimePeriod := {}
  data_logger : Instrument := {}
  channels : List Channel := []
deriving DecidableEq, Repr

/-- `Run.channels_recorded_all`. -/
def Run.channels_recorded_all (r : Run) : List (Option String) :=
  r.channels.map (·.component)

/-- `Run.has_channel`. -/
def Run.has_channel (r : Run) (component : Option String) : Bool :=
  r.channels_recorded_all.contains component

/-- Python `list.index` as a total function: position of the first
occurrence, `none` when absent. -/
def listIndexOf : List (Option String) → Option String → Option Nat
  | [], _ => none
  | c :: rest, x => if c == x then some 0 else (listIndexOf rest x).map (· + 1)

/-- `Run.channel_index`: position of the first channel with the component. -/
def Run.channel_index (r : Run) (component : Option String) : Option Nat :=
  listIndexOf r.channels_recorded_all component

/-- `Run.get_channel`: `channels_dict` is rebuilt from the channel list, so
the **last** channel with a given component wins; a miss returns `None`. -/
def Run.get_channel (r : Run) (component : Option String) : Option Channel :=
  r.channels.reverse.find? (fun c => c.component == component)

/-- `Run.add_channel` with the diagnostics it emits (the source logs
nothing here): overwrite at the first index with the same component, else
append. -/
def Run.add_channel (r : Run) (c : Channel) : Run × List String :=
  match r.channel_index c.component with
  | some i => ({ r with channels := r.channels.set i c }, [])
  | none => ({ r with channels := r.channels ++ [c] }, [])

/-- Python `str.lower`, over the character list (the `String` library
functions work on byte positions, which a kernel evaluation cannot
unfold). -/
def pyLower (s : String) : String :=
  ⟨s.data.map Char.toLower⟩

/-- Python `str.capitalize`: first character upper-cased, the rest
lower-cased. -/
def pyCapitalize (s : String) : String :=
  match s.data with
  | [] => ⟨[]⟩
  | c :: rest => ⟨c.toUpper :: rest.map Char.toLower⟩

/-- Shared body of the `ex`/`ey`/`hx`/`hy`/`hz` property setters: wrong
class raises `ValueError`; a `None` component is permitted ("assuming
initial empty object", a debug message); a component that does not equal
the accessor name case-insensitively raises `ValueError`. -/
def Run.setNamedChannel (r : Run) (name : String) (required : ChannelKind)
    (value : Channel) : Except PyErr Run :=
  if value.kind ≠ required then .error .valueError
  else
    match value.component with
    | none => .ok (r.add_channel value).1
    | some comp =>
        if pyLower comp = name then .ok (r.add_channel value).1
        else .error .valueError

/-- `Run.ex` setter. -/
def Run.set_ex (r : Run) (v : Channel) : Except PyErr Run :=
  r.setNamedChannel "ex" .electric v

/-- `Run.ey` setter. -/
def Run.set_ey (r : Run) (v : Channel) : Except PyErr Run :=
  r.setNamedChannel "ey" .electric v

/-- `Run.hx` setter. -/
def Run.set_hx (r : Run) (v : Channel) : Except PyErr Run :=
  r.setNamedChannel "hx" .magnetic v

/-- `Run.hy` setter. -/
def Run.set_hy (r : Run) (v : Channel) : Except PyErr Run :=
  r.setNamedChannel "hy" .magnetic v

/-- `Run.hz` setter. -/
def Run.set_hz (r : Run) (v : Channel) : Except PyErr Run :=
  r.setNamedChannel "hz" .magnetic v

/-- `Run.temperature` setter: unlike the five named setters it evaluates
`value.component.lower()` without a `None` guard, so an unset component
raises `AttributeError` instead of being permitted. -/
def Run.setTemperature (r : Run) (value : Channel) : Except PyErr Run :=
  if value.kind ≠ ChannelKind.auxiliary then .error .valueError
  else
    match value.component with
    | none => .error .attributeError
    | some comp =>
        if pyLower comp = "temperature" then .ok (r.add_channel value).1
        else .error .valueError

/-- `Run.__add__` merge: the channel lists are plain Python lists, so
`extend` concatenates them. -/
def Run.addRun (a b : Run) : Run :=
  { a with channels := a.channels ++ b.channels }

/-- Python's `<` on strings: lexicographic over the character codes. -/
def charListLt : List Char → List Char → Bool
  | [], [] => false
  | [], _ :: _ => true
  | _ :: _, [] => false
  | a :: as, b :: bs =>
      if a.val < b.val then true
      else if b.val < a.val then false
      else charListLt as bs

/-- Python string comparison, applied to the ISO timestamps the source
stores (lexicographic order on same-format ISO strings is chronological
order). -/
def strLt (a b : String) : Bool :=
  charListLt a.data b.data

/-- Python `min` over a non-empty list: keep the current best, replacing
it only by a strictly smaller item. -/
def pyMinStr : List String → Option String
  | [] => none
  | s :: rest => some (rest.foldl (fun best x => if strLt x best then x else best) s)

/-- Python `max` over a non-empty list. -/
def pyMaxStr : List String → Option String
  | [] => none
  | s :: rest => some (rest.foldl (fun best x => if strLt best x then x else best) s)

/-- One half of the shared body of `Station.update_time_period` /
`Run.update_time_period`: widen `start` to the children's minimum when it
is the sentinel or later than that minimum. -/
def stepStart (cur m : String) : String :=
  if cur = sentinelTime then m
  else if strLt m cur then m
  else cur

/-- The `end` half of the same pattern. -/
def stepStop (cur mM : String) : String :=
  if cur = sentinelTime then mM
  else if strLt cur mM then mM
  else cur

/-- Both halves over the children's bound lists (no children: no change). -/
def updateTimePeriodBounds (tp : TimePeriod) (starts stops : List String) : TimePeriod :=
  let tp1 :=
    match pyMinStr starts with
    | none => tp
    | some m => { tp with start := stepStart tp.start m }
  match pyMaxStr stops with
  | none => tp1
  | some mM => { tp1 with stop := stepStop tp1.stop mM }

/-- `Run.update_time_period` (bounds from the channels). -/
def Run.update_time_period (r : Run) : Run :=
  let tp := updateTimePeriodBounds r.time_period
    (r.channels.map (·.time_period.start)) (r.channels.map (·.time_period.stop))
  { r with time_period := tp }

/-- A station (the fields the claims touch); `runs` is the identity-keyed
collection, keyed by run id. -/
structure Station where
  id : Option String := none
  time_period : TimePeriod := {}
  runs : ListDict Run := ⟨[]⟩
deriving DecidableEq, Repr

/-- `Station.run_list` (the run keys). -/
def Station.run_list (st : Station) : List (Option String) :=
  st.runs.keys

/-- `Station.has_run`. -/
def Station.has_run (st : Station) (rid : Option String) : Bool :=
  st.run_list.contains rid

/-- `ListDict.append` for `Run` items: a `Run` always has an `id`
attribute, so `_get_key_from_object` returns its value. -/
def runsAppend (ld : ListDict Run) (r : Run) : ListDict Run :=
  ⟨odSet ld.home r.id r⟩

/-- Modelled from the spec: `mt_metadata.base.Base.update` is not under
`src/`; the spec says the stored child's fields are "merged (overwritten
field-by-field)" from the incoming child, so after the update the stored
child carries exactly the incoming child's field values (only object
identity, invisible in a pure embedding, distinguishes this from wholesale
replacement). -/
def Run.updateFields (_stored incoming : Run) : Run :=
  incoming

/-- `Station.add_run`: on an existing id, `self.runs[run_obj.id]` is
fetched and updated in place and a warning is logged; note that when the
duplicate id is `None`, `ListDict.__getitem__` falls through its
`str`/`int`/`slice` dispatch and raises `TypeError`.  On a new id the run
is appended. -/
def Station.add_run (st : Station) (r : Run) : Except PyErr (Station × List String) :=
  if st.has_run r.id then
    match r.id with
    | none => .error .typeError
    | some _ =>
        .ok ({ st with runs := ⟨st.runs.home.map (fun p =>
                 if p.1 = r.id then (p.1, Run.updateFields p.2 r) else p)⟩ },
             ["already exists, updating metadata"])
  else .ok ({ st with runs := runsAppend st.runs r }, [])

/-- `Station.update_time_period` (bounds from the runs). -/
def Station.update_time_period (st : Station) : Station :=
  let tp := updateTimePeriodBounds st.time_period
    (st.runs.values.map (·.time_period.start)) (st.runs.values.map (·.time_period.stop))
  { st with time_period := tp }

/-- `Station.__add__` merge: absorb the other station's runs via
`ListDict.extend` (keyed overwrite). -/
def Station.addStation (a b : Station) : Station :=
  { a with runs := ⟨ldExtend a.runs.home b.runs.home⟩ }

/-- A dynamically-typed operand, to express the `isinstance` dispatch of
the `__add__` operators. -/
inductive PyVal
  | station (s : Station)
  | run (r : Run)
  | strVal (s : String)
deriving DecidableEq, Repr

/-- `Station.__add__` / `Run.__add__` over dynamic operands: merging with
anything but the same entity type raises `TypeError`. -/
def pyAdd : PyVal → PyVal → Except PyErr PyVal
  | .station a, .station b => .ok (.station (a.addStation b))
  | .station _, _ => .error .typeError
  | .run a, .run b => .ok (.run (a.addRun b))
  | .run _, _ => .error .typeError
  | .strVal _, _ => .error .typeError
/-! ## The EMTF-XML transcoder

From `src/mt_metadata/transfer_functions/io/emtfxml/emtfxml.py`.  Matrices
are flattened entry lists of exact rationals (the transcoder only compares
entries with zero); `numpy.all(m == 0.0)` on an empty matrix is `True`. -/

/-- `np.all(m == 0.0)` over the flattened entries. -/
def npAllZero (m : List ℚ) : Bool :=
  m.all (· == 0)

/-- The transfer-function data block (`self.data`): the period axis and
the optional matrices the derivations inspect. -/
structure TFData where
  period : List ℚ := []
  z : Option (List ℚ) := none
  t : Option (List ℚ) := none
  z_var : Option (List ℚ) := none
  t_var : Option (List ℚ) := none
  z_invsigcov : Option (List ℚ) := none
  t_invsigcov : Option (List ℚ) := none
  z_residcov : Option (List ℚ) := none
  t_residcov : Option (List ℚ) := none
deriving DecidableEq, Repr

/-- The `if m is not None: if not np.all(m == 0.0): append` pattern of
`_get_data_types`. -/
def tagIncluded (m : Option (List ℚ)) : Bool :=
  match m with
  | none => false
  | some mat => !npAllZero mat

/-- `EMTFXML._get_data_types`: rebuild the data-type tag list (catalog
entries named by their keys). -/
def getDataTypes (d : TFData) : List String :=
  (if tagIncluded d.z then ["impedance"] else [])
    ++ (if tagIncluded d.t then ["tipper"] else [])

/-- The `if z_m is not None: ... elif t_m is not None: ...` pattern of
`_get_statistical_estimates`: the tipper-associated matrix is consulted
only when the impedance-associated one is `None`. -/
def estIncluded (zm tm : Option (List ℚ)) : Bool :=
  match zm with
  | some m => !npAllZero m
  | none =>
      match tm with
      | some m => !npAllZero m
      | none => false

/-- `EMTFXML._get_statistical_estimates`: rebuild the statistical-estimate
tag list (catalog entries named by their keys). -/
def getStatisticalEstimates (d : TFData) : List String :=
  (if estIncluded d.z_var d.t_var then ["variance"] else [])
    ++ (if estIncluded d.z_invsigcov d.t_invsigcov then ["inverse_signal_power"] else [])
    ++ (if estIncluded d.z_residcov d.t_residcov then ["residual_covariance"] else [])

/-- An `emtf_xml.Magnetometer` field-notes record. -/
structure XMagnetometer where
  id : Option String := none
  name : Option String := none
  manufacturer : Option String := none
  type : Option String := none
deriving DecidableEq, Repr

/-- An `emtf_xml.Electrode` record inside a dipole. -/
structure XElectrode where
  number : Option String := none
  location : Option String := none
  value : Option String := none
deriving DecidableEq, Repr

/-- An `emtf_xml.Dipole` field-notes record. -/
structure XDipole where
  name : Option String := none
  azimuth : Option ℚ := none
  length : Option ℚ := none
  manufacturer : Option String := none
  type : Option String := none
  electrode : List XElectrode := []
deriving DecidableEq, Repr

/-- An `emtf_xml` site-layout channel record (`Magnetic` uses x/y/z,
`Electric` additionally x2/y2/z2). -/
structure XChannel where
  name : Option String := none
  x : Option ℚ := none
  y : Option ℚ := none
  z : Option ℚ := none
  x2 : Option ℚ := none
  y2 : Option ℚ := none
  z2 : Option ℚ := none
  orientation : Option ℚ := none
deriving DecidableEq, Repr

/-- An `emtf_xml.Run` field-notes record (`stop` is the source's `end`). -/
structure XRun where
  run : Option String := none
  sampling_rate : Option ℚ := none
  start : Option String := none
  stop : Option String := none
  instrument : Instrument := {}
  magnetometer : List XMagnetometer := []
  dipole : List XDipole := []
deriving DecidableEq, Repr

/-- The interchange document model (the sections the claims touch).  XML
serialisation and re-parsing is the out-of-scope tree-flattening
primitive, modelled as the identity on this document model. -/
structure EMTFDoc where
  site_id : Option String := none
  site_start : Option String := none
  site_stop : Option String := none
  field_notes : List XRun := []
  input_channels : List XChannel := []
  output_channels : List XChannel := []
  data : TFData := {}
  period_range_min : Option ℚ := none
  period_range_max : Option ℚ := none
deriving DecidableEq, Repr

/-- The magnetometer loop of the `station_metadata` setter over
`["hx", "hy", "hz"]`.  A missing channel makes `rch.sensor.id` raise
`AttributeError` inside the `try` (caught, debug-logged), but the fluxgate
early-stop check sits after the `except` block and dereferences `rch`
(`None`) again — an uncaught `AttributeError`.  When the check fires on a
present channel the loop `break`s after a single magnetometer. -/
def writeMagLoop (r : Run) : List String → Except PyErr (List XMagnetometer × List XChannel × List XChannel)
  | [] => .ok ([], [], [])
  | comp :: rest =>
      match r.get_channel (some comp) with
      | none => .error .attributeError
      | some c =>
          let mag : XMagnetometer :=
            { id := c.sensor.id, name := c.sensor.name,
              manufacturer := c.sensor.manufacturer, type := c.sensor.type }
          let chIn : XChannel :=
            { name := some (pyCapitalize comp),
              x := some (c.location.x.getD 0), y := some (c.location.y.getD 0),
              z := some (c.location.z.getD 0), orientation := c.translated_azimuth }
          let ins : List XChannel := if comp = "hx" ∨ comp = "hy" then [chIn] else []
          let outs : List XChannel := if comp = "hx" ∨ comp = "hy" then [] else [chIn]
          if (c.sensor.name = some "NIMS" ∨ c.sensor.name = some "LEMI")
              ∧ c.sensor.type = some "fluxgate" then
            .ok ([mag], ins, outs)
          else
            match writeMagLoop r rest with
            | .error e => .error e
            | .ok (ms, ins2, outs2) => .ok (mag :: ms, ins ++ ins2, outs ++ outs2)

/-- One component (`ex`/`ey`) of the dipole loop of the `station_metadata`
setter.  A missing channel — or a non-electric channel stored under the
component, whose `dipole_length` access fails — raises `AttributeError`
inside the `try`, which is caught and debug-logged, skipping the
component. -/
def writeDipole (r : Run) (comp : String) : Option (XDipole × XChannel) :=
  match r.get_channel (some comp) with
  | none => none
  | some c =>
      if c.kind ≠ ChannelKind.electric then none
      else
        some
          ({ name := some (pyCapitalize comp), azimuth := c.translated_azimuth,
             length := c.dipole_length, manufacturer := c.positive.manufacturer,
             type := c.positive.type,
             electrode :=
               [ { number := c.positive.id,
                   location := some (if comp = "ex" then "n" else "e"),
                   value := c.positive.type },
                 { number := c.negative.id,
                   location := some (if comp = "ex" then "s" else "w"),
                   value := c.negative.type } ] },
           { name := some (pyCapitalize comp),
             x := some (c.negative.x.getD 0), y := some (c.negative.y.getD 0),
             z := some (c.negative.z.getD 0),
             x2 := some (c.positive.x2.getD 0), y2 := some (c.positive.y2.getD 0),
             z2 := some (c.positive.z2.getD 0), orientation := c.translated_azimuth })

/-- The field-notes record built for one canonical run, with the
site-layout channels appended for it (inputs, outputs). -/
def writeRunRecord (r : Run) : Except PyErr (XRun × List XChannel × List XChannel) :=
  match writeMagLoop r ["hx", "hy", "hz"] with
  | .error e => .error e
  | .ok (mags, ins, outs) =>
      let dps := ["ex", "ey"].filterMap (writeDipole r)
      .ok ({ run := r.id, sampling_rate := r.sample_rate,
             start := some r.time_period.start, stop := some r.time_period.stop,
             instrument := { id := r.data_logger.id, name := r.data_logger.type,
                             manufacturer := r.data_logger.manufacturer },
             magnetometer := mags, dipole := dps.map Prod.fst },
           ins, outs ++ dps.map Prod.snd)

/-- The field-notes loop of the `station_metadata` setter over all runs,
accumulating the global site-layout lists. -/
def writeRuns : List Run → Except PyErr (List XRun × List XChannel × List XChannel)
  | [] => .ok ([], [], [])
  | r :: rest =>
      match writeRunRecord r with
      | .error e => .error e
      | .ok (fn, ins, outs) =>
          match writeRuns rest with
          | .error e => .error e
          | .ok (fns, ins2, outs2) => .ok (fn :: fns, ins ++ ins2, outs ++ outs2)

/-- `EMTFXML.station_metadata` setter (the structural portion: site
identity and time period, field notes, site layout; the comment splitting
and the one-to-one provenance copies go through the out-of-scope
attribute-schema layer).  It operates on a freshly constructed document,
as `write_emtfxml` does. -/
def writeStationMetadata (sm : Station) : Except PyErr EMTFDoc :=
  match writeRuns sm.runs.values with
  | .error e => .error e
  | .ok (fns, ins, outs) =>
      .ok { site_id := sm.id, site_start := some sm.time_period.start,
            site_stop := some sm.time_period.stop,
            field_notes := fns, input_channels := ins, output_channels := outs }

/-- The named channel accessors a `Run` exposes; `getattr(r, name)` for
any other name raises `AttributeError`. -/
def accessorNames : List String :=
  ["ex", "ey", "hx", "hy", "hz", "temperature"]

/-- Electrode-polarity assignment in the `station_metadata` getter: an
electrode whose location tag lower-cases to `n`/`e` populates the positive
terminal, `s`/`w` the negative one, anything else is ignored; a `None`
location raises `AttributeError` (uncaught).  The source assigns
`positive.type` twice (`pot.value`, then `dp.type`), so the dipole's type
wins. -/
def applyElectrode (dp : XDipole) (c : Channel) (pot : XElectrode) : Except PyErr Channel :=
  match pot.location with
  | none => .error .attributeError
  | some loc =>
      if pyLower loc = "n" ∨ pyLower loc = "e" then
        let pos := { c.positive with
                     id := pot.number, type := dp.type,
                     manufacturer := dp.manufacturer }
        .ok { c with positive := pos }
      else if pyLower loc = "s" ∨ pyLower loc = "w" then
        let neg := { c.negative with
                     id := pot.number, type := dp.type,
                     manufacturer := dp.manufacturer }
        .ok { c with negative := neg }
      else .ok c

/-- The magnetic channels the `station_metadata` getter reconstructs from
a field-notes record: exactly one magnetometer instantiates all three of
`hx`/`hy`/`hz` sharing its sensor metadata; otherwise one channel per
magnetometer named by its own `name` (entries with a `None` name are
skipped). -/
def readMagnetometers (fn : XRun) : List Channel :=
  match fn.magnetometer with
  | [mag] =>
      ["hx", "hy", "hz"].map (fun comp =>
        { kind := .magnetic, component := some comp,
          sensor := { id := mag.id, name := mag.name,
                      manufacturer := mag.manufacturer, type := mag.type } })
  | mags =>
      mags.filterMap (fun mag =>
        mag.name.map (fun nm =>
          { kind := .magnetic, component := some (pyLower nm),
            sensor := { id := mag.id, name := mag.name,
                        manufacturer := mag.manufacturer, type := mag.type } }))

/-- The electric channel the getter reconstructs from one dipole record
(`None` name: skipped). -/
def readDipoleChannel (dp : XDipole) : Except PyErr (Option Channel) :=
  match dp.name with
  | none => .ok none
  | some nm =>
      match dp.electrode.foldlM (applyElectrode dp)
          { kind := .electric, component := some (pyLower nm),
            translated_azimuth := dp.azimuth, dipole_length := dp.length } with
      | .error e => .error e
      | .ok c => .ok (some c)

/-- Replace the channel object `channels_dict` returned (the **last**
channel with the component) in place. -/
def Run.setLastChannel (r : Run) (component : Option String) (c : Channel) : Run :=
  match listIndexOf (r.channels.reverse.map (·.component)) component with
  | none => r
  | some j => { r with channels := (r.channels.reverse.set j c).reverse }

/-- The geometry/orientation overwrite the site-layout pass applies to a
found channel: magnetic components receive plain x/y/z, electric ones
negative-terminal x/y/z plus positive-terminal x2/y2/z2, and both azimuth
fields take the record's orientation.  (`c = getattr(r, ch.name.lower())`
raises `AttributeError` when the name is `None`, not a Run accessor, or
the accessor returns `None`, dereferenced straight away as
`c.component`.) -/
def layoutPatch (c : Channel) (ch : XChannel) : Channel :=
  let c1 :=
    if c.component = some "hx" ∨ c.component = some "hy" ∨ c.component = some "hz" then
      { c with location := { x := ch.x, y := ch.y, z := ch.z } }
    else if c.component = some "ex" ∨ c.component = some "ey" then
      { c with negative := { c.negative with x := ch.x, y := ch.y, z := ch.z },
               positive := { c.positive with x2 := ch.x2, y2 := ch.y2, z2 := ch.z2 } }
    else c
  { c1 with measurement_azimuth := ch.orientation,
            translated_azimuth := ch.orientation }

/-- The site-layout overwrite pass of the getter, one layout record at a
time (continued): dispatch on the record's name and patch the channel the
accessor returns in place. -/
def applyLayoutChannel (r : Run) (ch : XChannel) : Except PyErr Run :=
  match ch.name with
  | none => .error .attributeError
  | some nm0 =>
      let nm := pyLower nm0
      if nm ∉ accessorNames then .error .attributeError
      else
        match r.get_channel (some nm) with
        | none => .error .attributeError
        | some c => .ok (r.setLastChannel (some nm) (layoutPatch c ch))

/-- One field-notes record turned into a canonical run (before the
site-layout pass). -/
def readFieldNotesRun (fn : XRun) : Except PyErr Run :=
  let r0 : Run :=
    { id := fn.run, sample_rate := fn.sampling_rate,
      data_logger := { id := fn.instrument.id, type := fn.instrument.name,
                       manufacturer := fn.instrument.manufacturer },
      time_period := { start := fn.start.getD sentinelTime,
                       stop := fn.stop.getD sentinelTime },
      channels := [] }
  let r1 := (readMagnetometers fn).foldl (fun r c => (r.add_channel c).1) r0
  fn.dipole.foldlM (fun r dp =>
    match readDipoleChannel dp with
    | .error e => .error e
    | .ok none => .ok r
    | .ok (some c) => .ok (r.add_channel c).1) r1

/-- One iteration of the field-notes loop of the `station_metadata`
getter: a record with a `0` or `None` sampling rate is skipped (a non-data
placeholder); a surviving record becomes a run, patched by the site-layout
pass and added via `add_run`. -/
def readRunStep (layout : List XChannel) (st : Station) (fn : XRun) : Except PyErr Station :=
  if fn.sampling_rate = some 0 ∨ fn.sampling_rate = none then .ok st
  else
    match readFieldNotesRun fn with
    | .error e => .error e
    | .ok r =>
        match layout.foldlM applyLayoutChannel r with
        | .error e => .error e
        | .ok r2 =>
            match st.add_run r2 with
            | .error e => .error e
            | .ok (st2, _log) => .ok st2

/-- `EMTFXML.station_metadata` getter (structural portion). -/
def readStationMetadata (doc : EMTFDoc) : Except PyErr Station :=
  doc.field_notes.foldlM (readRunStep (doc.input_channels ++ doc.output_channels))
    { id := doc.site_id,
      time_period := { start := doc.site_start.getD sentinelTime,
                       stop := doc.site_stop.getD sentinelTime } }

/-- The canonical transfer-function object fed to `write_emtfxml` (the
station tree plus the numeric data the claims touch). -/
structure TFObject where
  station : Station := {}
  period : List ℚ := []
  z : Option (List ℚ) := none
  t : Option (List ℚ) := none
deriving DecidableEq, Repr

/-- Python `min` of a numpy array of periods (raises on empty). -/
def pyMinQ : List ℚ → Option ℚ
  | [] => none
  | x :: rest => some (rest.foldl min x)

/-- Python `max` of a numpy array of periods (raises on empty). -/
def pyMaxQ : List ℚ → Option ℚ
  | [] => none
  | x :: rest => some (rest.foldl max x)

/-- Modelled from the spec: `core.TF.has_impedance` is not under `src/`;
per the spec's derived-tags rule a transfer function "reports" impedance
when the matrix is non-null and not identically all-zero. -/
def TFObject.has_impedance (tf : TFObject) : Bool :=
  match tf.z with
  | some m => !npAllZero m
  | none => false

/-- Modelled from the spec: `core.TF.has_tipper`, as for impedance. -/
def TFObject.has_tipper (tf : TFObject) : Bool :=
  match tf.t with
  | some m => !npAllZero m
  | none => false

/-- `write_emtfxml` (structural portion): populate a fresh document from
the canonical tree, copy the matrices that are reported, and derive the
period range (`np.min`/`np.max` raise on an empty axis). -/
def write_emtfxml (tf : TFObject) : Except PyErr EMTFDoc :=
  match writeStationMetadata tf.station with
  | .error e => .error e
  | .ok doc =>
      let d1 := { doc with data :=
        { period := tf.period,
          z := if tf.has_impedance then tf.z else none,
          t := if tf.has_tipper then tf.t else none } }
      match pyMinQ tf.period, pyMaxQ tf.period with
      | some mn, some mx =>
          .ok { d1 with period_range_min := some mn, period_range_max := some mx }
      | _, _ => .error .valueError

/-- What `read_emtfxml` hands back (the quantities the round-trip claim
compares). -/
structure TFResult where
  station : Station
  period : List ℚ
  z : Option (List ℚ)
  period_range_min : Option ℚ
  period_range_max : Option ℚ
deriving DecidableEq, Repr

/-- `EMTFXML.read` + `read_emtfxml` (structural portion): recompute the
period range from the parsed period axis, derive the station via the
`station_metadata` getter, copy the data.  The XML layer in between is the
identity on the document model. -/
def read_emtfxml (doc : EMTFDoc) : Except PyErr TFResult :=
  match pyMinQ doc.data.period, pyMaxQ doc.data.period with
  | some mn, some mx =>
      match readStationMetadata doc with
      | .error e => .error e
      | .ok st =>
          .ok { station := st, period := doc.data.period, z := doc.data.z,
                period_range_min := some mn, period_range_max := some mx }
  | _, _ => .error .valueError

/-- The full round trip of the round-trip claim. -/
def roundTrip (tf : TFObject) : Except PyErr TFResult :=
  match write_emtfxml tf with
  | .error e => .error e
  | .ok doc => read_emtfxml doc

/-- The round-trip-friendly run shape of the amended round-trip claim:
exactly the five standard components (in any order, each once), electric
classes on `ex`/`ey`, a fluxgate NIMS/LEMI sensor on `hx` (the
single-sensor triaxial write path), and a usable sampling rate. -/
structure GoodRun (r : Run) : Prop where
  comps_perm : (r.channels.map (·.component)).Perm
    [some "hx", some "hy", some "hz", some "ex", some "ey"]
  kinds_ele : ∀ c ∈ r.channels,
    (c.component = some "ex" ∨ c.component = some "ey") → c.kind = ChannelKind.electric
  hx_fluxgate : ∀ c ∈ r.channels, c.component = some "hx" →
    (c.sensor.name = some "NIMS" ∨ c.sensor.name = some "LEMI")
      ∧ c.sensor.type = some "fluxgate"
  rate_some : r.sample_rate ≠ none
  rate_nonzero : r.sample_rate ≠ some 0

/-- What the write direction guarantees about the field-notes record of
one run, and what the read direction needs to reconstruct it. -/
def goodPair (r : Run) (fn : XRun) : Prop :=
  fn.run = r.id ∧ fn.sampling_rate = r.sample_rate
    ∧ (∃ mag, fn.magnetometer = [mag])
    ∧ fn.dipole.map (·.name) = [some "Ex", some "Ey"]
    ∧ (∀ dp ∈ fn.dipole, ∀ pot ∈ dp.electrode, pot.location ≠ none)

/-! ## Concrete inputs used by witnesses and counterexamples -/

/-- A populated electric `ex` channel. -/
def chanEx : Channel :=
  { kind := .electric, component := some "ex",
    positive := { id := some "P1", x2 := some 10 },
    negative := { id := some "P2", x := some 0 },
    translated_azimuth := some 0, dipole_length := some 100 }

/-- A populated electric `ey` channel. -/
def chanEy : Channel :=
  { kind := .electric, component := some "ey",
    positive := { id := some "P3" }, negative := { id := some "P4" },
    translated_azimuth := some 90 }

/-- A triaxial fluxgate sensor fitting the single-sensor write path. -/
def nimsSensor : Instrument :=
  { id := some "S1", name := some "NIMS", manufacturer := some "X",
    type := some "fluxgate" }

/-- Magnetic `hx` channel on the fluxgate sensor. -/
def chanHx : Channel :=
  { kind := .magnetic, component := some "hx", sensor := nimsSensor }

/-- Magnetic `hy` channel on the fluxgate sensor. -/
def chanHy : Channel :=
  { kind := .magnetic, component := some "hy", sensor := nimsSensor }

/-- Magnetic `hz` channel on the fluxgate sensor. -/
def chanHz : Channel :=
  { kind := .magnetic, component := some "hz", sensor := nimsSensor }

/-- A fully recorded run (all five components, non-zero sampling rate). -/
def runGood : Run :=
  { id := some "a", sample_rate := some 1,
    channels := [chanEx, chanHx, chanHy, chanHz, chanEy] }

/-- A station holding `runGood`. -/
def stGood : Station :=
  { id := some "mt01", runs := ⟨[(some "a", runGood)]⟩ }

/-- A canonical tree with a non-zero impedance matrix. -/
def tfGood : TFObject :=
  { station := stGood, period := [1, 10], z := some [1, 0, 0, 0] }

/-- Like `runGood` but with the sampling rate left at `0`. -/
def runZeroRate : Run :=
  { id := some "a", sample_rate := some 0,
    channels := [chanEx, chanHx, chanHy, chanHz, chanEy] }

/-- A canonical tree whose only run has sampling rate `0`. -/
def tfZeroRate : TFObject :=
  { station := { id := some "mt01", runs := ⟨[(some "a", runZeroRate)]⟩ },
    period := [1], z := some [1] }

/-- A run recording only the electric `ex` component. -/
def runOnlyEx : Run :=
  { id := some "b", sample_rate := some 1, channels := [chanEx] }

/-- A station whose run lacks every magnetic channel. -/
def stOnlyEx : Station :=
  { id := some "mt10", runs := ⟨[(some "b", runOnlyEx)]⟩ }

/-- An item with no identity attribute at all. -/
def objNoKey : PyObj :=
  { id := none, component := none }

/-- An item whose `id` attribute is present but `None`, with a component. -/
def objNullId : PyObj :=
  { id := some none, component := some (some "ex") }

/-- A run without an id. -/
def runNoId : Run :=
  { sample_rate := some 8 }

/-- The station state right after `runNoId` has been added once. -/
def stNoIdRun : Station :=
  { id := some "mt04", runs := ⟨[(none, runNoId)]⟩ }

/-- A run already holding an `ex` channel. -/
def runWithEx : Run :=
  { id := some "r1", channels := [chanEx] }

/-- A second `ex` channel with different field values. -/
def chanEx2 : Channel :=
  { kind := .electric, component := some "ex", dipole_length := some 55 }

/-- A run holding only `chanEx2`, for the `Run.__add__` counterexample. -/
def runWithEx2 : Run :=
  { id := some "r2", channels := [chanEx2] }

/-- A run bounded by the earliest start and an early stop. -/
def runT1 : Run :=
  { id := some "r1",
    time_period := { start := "2020-01-01T00:00:00+00:00",
                     stop := "2020-01-02T00:00:00+00:00" } }

/-- A run bounded by a later start and the latest stop. -/
def runT2 : Run :=
  { id := some "r2",
    time_period := { start := "2020-02-01T00:00:00+00:00",
                     stop := "2020-02-05T00:00:00+00:00" } }

/-- A station with sentinel bounds holding `runT1` and `runT2`. -/
def stTimes : Station :=
  { id := some "mt03", runs := ⟨[(some "r1", runT1), (some "r2", runT2)]⟩ }

/-- An auxiliary channel whose component is unset. -/
def auxUnset : Channel :=
  { kind := .auxiliary, component := none }

/-! ### `OrderedDict` characterization lemmas -/

/-- The keys of `odSet` are the old keys when the key is present, else the
old keys with the new key appended at the end. -/
theorem odSet_keys {α : Type} (home : List (Option String × α)) (k : Option String) (v : α) :
    (odSet home k v).map Prod.fst =
      (if k ∈ home.map Prod.fst then home.map Prod.fst else home.map Prod.fst ++ [k]) := by
  induction home with
  | nil => simp [odSet]
  | cons p rest ih =>
      obtain ⟨k', v'⟩ := p
      by_cases h : k' = k
      · subst h
        simp [odSet]
      · have h' : ¬(k = k') := fun hh => h hh.symm
        by_cases hk : k ∈ rest.map Prod.fst
        · simp [odSet, h, hk, ih, h']
        · simp [odSet, h, hk, ih, h']

/-- After `odSet`, looking up the written key yields the written value. -/
theorem odSet_get_self {α : Type} (home : List (Option String × α)) (k : Option String) (v : α) :
    odGet (odSet home k v) k = some v := by
  induction home with
  | nil => simp [odSet, odGet]
  | cons p rest ih =>
      obtain ⟨k', v'⟩ := p
      by_cases h : k' = k
      · simp [odSet, odGet, h]
      · simp [odSet, odGet, h, ih]

/-- `odSet` leaves lookups of every other key unchanged. -/
theorem odSet_get_other {α : Type} (home : List (Option String × α)) (k k' : Option String)
    (v : α) (h : k' ≠ k) : odGet (odSet home k v) k' = odGet home k' := by
  have hk : k ≠ k' := fun hh => h hh.symm
  induction home with
  | nil => simp [odSet, odGet, hk]
  | cons p rest ih =>
      obtain ⟨k₀, v₀⟩ := p
      by_cases h0 : k₀ = k
      · subst h0
        simp [odSet, odGet, hk]
      · by_cases h1 : k₀ = k'
        · simp [odSet, odGet, h0, h1, h]
        · simp [odSet, odGet, h0, h1, h, ih]

/-- `odSet` preserves key uniqueness. -/
theorem odSet_nodup {α : Type} (home : List (Option String × α)) (k : Option String) (v : α)
    (hnd : (home.map Prod.fst).Nodup) : ((odSet home k v).map Prod.fst).Nodup := by
  rw [odSet_keys]
  by_cases hk : k ∈ home.map Prod.fst
  · simpa [hk] using hnd
  · rw [if_neg hk, List.nodup_append]
    refine ⟨hnd, List.nodup_singleton _, ?_⟩
    intro a ha hb
    have hak : a = k := by simpa using hb
    exact hk (hak ▸ ha)

/-- When the key is new, `odSet` appends the pair at the end. -/
theorem odSet_of_not_mem {α : Type} (home : List (Option String × α)) (k : Option String)
    (v : α) (hk : k ∉ home.map Prod.fst) : odSet home k v = home ++ [(k, v)] := by
  induction home with
  | nil => rfl
  | cons p rest ih =>
      obtain ⟨k0, v0⟩ := p
      simp only [List.map_cons, List.mem_cons, not_or] at hk
      have hne : k0 ≠ k := fun hh => hk.1 hh.symm
      simp [odSet, hne, ih hk.2]

/-! ### Claims C6 and C7: `ListDict.append` key derivation and upsert -/

/-- C7: the claim says that inserting an item with neither an `id` nor a
`component` attribute fails with a key-derivation error.  In the source
`_get_key_from_object` does raise `TypeError`, but `append` catches it and
stores the item under the synthetic key `"0"` — the insert does not
fail. -/
theorem c7_counterexample :
    getKeyFromObject objNoKey = .error .typeError
      ∧ (ListDict.appendObj ⟨[]⟩ objNoKey).home = [(some "0", objNoKey)] :=
  ⟨rfl, rfl⟩

/-- C7 (amended): inserting an item with neither attribute never fails;
the `TypeError` is caught inside `append` and the item is stored under the
stringified current length of the collection (appended at the end when
that synthetic key is fresh). -/
theorem c7_synthetic_key (ld : ListDict PyObj) (o : PyObj)
    (hid : o.id = none) (hcomp : o.component = none) :
    ld.appendObj o = ⟨odSet ld.home (some (toString ld.home.length)) o⟩
      ∧ (some (toString ld.home.length) ∉ ld.keys →
          (ld.appendObj o).home = ld.home ++ [(some (toString ld.home.length), o)]) := by
  have hkey : appendKey o ld.home.length = some (toString ld.home.length) := by
    simp [appendKey, getKeyFromObject, hid, hcomp]
  refine ⟨by simp [ListDict.appendObj, hkey], fun hnm => ?_⟩
  simp only [ListDict.appendObj, hkey]
  exact odSet_of_not_mem _ _ _ (by simpa [ListDict.keys] using hnm)

/-- Witness for `c7_synthetic_key` at the empty collection. -/
theorem c7_synthetic_key_witness :
    (ListDict.appendObj ⟨[]⟩ objNoKey).home = [(some "0", objNoKey)] := by
  have h := c7_synthetic_key ⟨[]⟩ objNoKey rfl rfl
  simpa using h.2 (by simp [ListDict.keys])

/-- C6: the claim says the derived key is `item.id` when that value is
non-null, else `item.component`.  In the source `hasattr` decides: an item
whose `id` attribute is present but `None` is keyed by that `None`, not by
its component. -/
theorem c6_counterexample :
    appendKey objNullId 0 = none
      ∧ specClaimedKey objNullId 0 = some "ex"
      ∧ (ListDict.appendObj ⟨[]⟩ objNullId).home = [(none, objNullId)] :=
  ⟨rfl, rfl, rfl⟩

/-- C6 (amended): the derived key is `item.id` whenever the item has an
`id` attribute — even a `None` value, which then serves as the dictionary
key — else `item.component` whenever that attribute is present, else the
stringified current length; an existing key is overwritten in place with
its position preserved, a new key is inserted at the end. -/
theorem c6_append_upsert (ld : ListDict PyObj) (o : PyObj) (idv compv : Option String)
    (hnd : ld.keys.Nodup) :
    (o.id = some idv → appendKey o ld.home.length = idv)
    ∧ (o.id = none → o.component = some compv → appendKey o ld.home.length = compv)
    ∧ (o.id = none → o.component = none →
        appendKey o ld.home.length = some (toString ld.home.length))
    ∧ ((ld.appendObj o).keys =
        (if appendKey o ld.home.length ∈ ld.keys then ld.keys
         else ld.keys ++ [appendKey o ld.home.length]))
    ∧ odGet (ld.appendObj o).home (appendKey o ld.home.length) = some o
    ∧ (∀ kk, kk ≠ appendKey o ld.home.length →
        odGet (ld.appendObj o).home kk = odGet ld.home kk)
    ∧ (ld.appendObj o).keys.Nodup := by
  refine ⟨fun h => by simp [appendKey, getKeyFromObject, h],
    fun h1 h2 => by simp [appendKey, getKeyFromObject, h1, h2],
    fun h1 h2 => by simp [appendKey, getKeyFromObject, h1, h2], ?_, ?_, ?_, ?_⟩
  · simpa [ListDict.appendObj, ListDict.keys] using
      odSet_keys ld.home (appendKey o ld.home.length) o
  · exact odSet_get_self _ _ _
  · exact fun kk hkk => odSet_get_other _ _ _ _ hkk
  · exact odSet_nodup _ _ _ (by simpa [ListDict.keys] using hnd)

/-- Witness for `c6_append_upsert`: the null-id item is retrievable under
the `None` key after the append. -/
theorem c6_append_upsert_witness :
    odGet (ListDict.appendObj ⟨[]⟩ objNullId).home none = some objNullId := by
  have h := c6_append_upsert ⟨[]⟩ objNullId none (some "ex") (by simp [ListDict.keys])
  exact h.2.2.2.2.1

/-! ### Claim C10: missing channels during a write -/

/-- C10: the claim (with the spec) says missing channel accessors during a
write are logged and skipped, never fatal.  The `except AttributeError`
inside the magnetometer loop does catch the miss, but the fluxgate
early-stop check sits after the `except` block and dereferences the `None`
the accessor returned, so a run lacking a magnetic channel makes the whole
write raise an uncaught `AttributeError` instead of completing. -/
theorem c10_missing_magnetic_fatal :
    runOnlyEx.get_channel (some "hx") = none
      ∧ writeStationMetadata stOnlyEx = .error .attributeError :=
  ⟨rfl, rfl⟩

/-! ### Claims C2 and C9: derived tag lists on write -/

/-- The `if m is not None: if not np.all(m == 0.0)` test succeeds exactly
on a non-null, not identically zero matrix. -/
theorem tagIncluded_iff (mo : Option (List ℚ)) :
    tagIncluded mo = true ↔ ∃ mm, mo = some mm ∧ npAllZero mm = false := by
  cases mo <;> simp [tagIncluded]

/-- Membership of the impedance entry only tracks the `z` check. -/
theorem mem_getDataTypes_imp (d : TFData) :
    "impedance" ∈ getDataTypes d ↔ tagIncluded d.z = true := by
  cases hz : tagIncluded d.z <;> cases ht : tagIncluded d.t <;>
    simp [getDataTypes, hz, ht]

/-- Membership of the tipper entry only tracks the `t` check. -/
theorem mem_getDataTypes_tip (d : TFData) :
    "tipper" ∈ getDataTypes d ↔ tagIncluded d.t = true := by
  cases hz : tagIncluded d.z <;> cases ht : tagIncluded d.t <;>
    simp [getDataTypes, hz, ht]

/-- C2: the impedance entry is listed iff the impedance matrix is non-null
and not identically zero, the tipper entry likewise on the tipper matrix,
and the two checks are independent; an all-zero impedance matrix is never
listed, and a non-zero impedance matrix with a null tipper yields exactly
the impedance entry. -/
theorem c2_data_type_tags (d : TFData) (m : List ℚ) (t' : Option (List ℚ)) :
    ("impedance" ∈ getDataTypes d ↔ ∃ mm, d.z = some mm ∧ npAllZero mm = false)
    ∧ ("tipper" ∈ getDataTypes d ↔ ∃ mm, d.t = some mm ∧ npAllZero mm = false)
    ∧ ("impedance" ∈ getDataTypes { d with t := t' } ↔ "impedance" ∈ getDataTypes d)
    ∧ ("tipper" ∈ getDataTypes { d with z := some m } ↔ "tipper" ∈ getDataTypes d)
    ∧ (d.z = some m → npAllZero m = true → "impedance" ∉ getDataTypes d)
    ∧ (d.z = some m → npAllZero m = false → d.t = none → getDataTypes d = ["impedance"]) := by
  refine ⟨(mem_getDataTypes_imp d).trans (tagIncluded_iff d.z),
    (mem_getDataTypes_tip d).trans (tagIncluded_iff d.t), ?_, ?_, ?_, ?_⟩
  · rw [mem_getDataTypes_imp, mem_getDataTypes_imp]
  · rw [mem_getDataTypes_tip, mem_getDataTypes_tip]
  · intro hz hm
    rw [mem_getDataTypes_imp]
    simp [tagIncluded, hz, hm]
  · intro hz hm ht
    simp [getDataTypes, tagIncluded, hz, hm, ht]

/-- Witness for `c2_data_type_tags`: an all-zero impedance matrix is not
listed; a non-zero one with null tipper yields exactly the impedance
entry. -/
theorem c2_data_type_tags_witness :
    "impedance" ∉ getDataTypes { z := some [0, 0], t := some [1] }
      ∧ getDataTypes { z := some [1], t := none } = ["impedance"] := by
  constructor
  · exact (c2_data_type_tags { z := some [0, 0], t := some [1] } [0, 0] none).2.2.2.2.1
      rfl (by decide)
  · exact (c2_data_type_tags { z := some [1], t := none } [1] none).2.2.2.2.2
      rfl (by decide) rfl

/-- The `if/elif` estimate test succeeds exactly when the
impedance-associated matrix passes, or is absent and the tipper-associated
one passes. -/
theorem estIncluded_iff (zm tm : Option (List ℚ)) :
    estIncluded zm tm = true ↔
      ((∃ mm, zm = some mm ∧ npAllZero mm = false)
        ∨ (zm = none ∧ ∃ mm, tm = some mm ∧ npAllZero mm = false)) := by
  cases zm <;> cases tm <;> simp [estIncluded]

/-- Membership of the variance entry only tracks the variance check. -/
theorem mem_est_var (d : TFData) :
    "variance" ∈ getStatisticalEstimates d ↔ estIncluded d.z_var d.t_var = true := by
  cases h1 : estIncluded d.z_var d.t_var <;>
    cases h2 : estIncluded d.z_invsigcov d.t_invsigcov <;>
      cases h3 : estIncluded d.z_residcov d.t_residcov <;>
        simp [getStatisticalEstimates, h1, h2, h3]

/-- Membership of the inverse-signal-power entry only tracks its check. -/
theorem mem_est_isp (d : TFData) :
    "inverse_signal_power" ∈ getStatisticalEstimates d
      ↔ estIncluded d.z_invsigcov d.t_invsigcov = true := by
  cases h1 : estIncluded d.z_var d.t_var <;>
    cases h2 : estIncluded d.z_invsigcov d.t_invsigcov <;>
      cases h3 : estIncluded d.z_residcov d.t_residcov <;>
        simp [getStatisticalEstimates, h1, h2, h3]

/-- Membership of the residual-covariance entry only tracks its check. -/
theorem mem_est_rc (d : TFData) :
    "residual_covariance" ∈ getStatisticalEstimates d
      ↔ estIncluded d.z_residcov d.t_residcov = true := by
  cases h1 : estIncluded d.z_var d.t_var <;>
    cases h2 : estIncluded d.z_invsigcov d.t_invsigcov <;>
      cases h3 : estIncluded d.z_residcov d.t_residcov <;>
        simp [getStatisticalEstimates, h1, h2, h3]

/-- C9: each statistical-estimate entry is included exactly when its
impedance-associated matrix is non-null and not identically zero, falling
back to the tipper-associated matrix only when the impedance-associated
one is null; when the impedance-associated matrix is non-null the
tipper-associated one is never consulted. -/
theorem c9_statistical_estimate_tags (d : TFData) (m : List ℚ) (t1 t2 : Option (List ℚ)) :
    ("variance" ∈ getStatisticalEstimates d ↔
        ((∃ mm, d.z_var = some mm ∧ npAllZero mm = false)
          ∨ (d.z_var = none ∧ ∃ mm, d.t_var = some mm ∧ npAllZero mm = false)))
    ∧ ("inverse_signal_power" ∈ getStatisticalEstimates d ↔
        ((∃ mm, d.z_invsigcov = some mm ∧ npAllZero mm = false)
          ∨ (d.z_invsigcov = none ∧ ∃ mm, d.t_invsigcov = some mm ∧ npAllZero mm = false)))
    ∧ ("residual_covariance" ∈ getStatisticalEstimates d ↔
        ((∃ mm, d.z_residcov = some mm ∧ npAllZero mm = false)
          ∨ (d.z_residcov = none ∧ ∃ mm, d.t_residcov = some mm ∧ npAllZero mm = false)))
    ∧ estIncluded (some m) t1 = estIncluded (some m) t2
    ∧ getStatisticalEstimates { d with z_var := some m, t_var := t1 }
        = getStatisticalEstimates { d with z_var := some m, t_var := t2 } :=
  ⟨(mem_est_var d).trans (estIncluded_iff _ _),
    (mem_est_isp d).trans (estIncluded_iff _ _),
    (mem_est_rc d).trans (estIncluded_iff _ _),
    rfl, rfl⟩

/-! ### Claim C3: `update_time_period` monotone widening -/

/-- Lexicographic comparison is irreflexive. -/
theorem charListLt_irrefl (l : List Char) : charListLt l l = false := by
  induction l with
  | nil => rfl
  | cons a as ih => simp [charListLt, ih]

/-- String comparison is irreflexive. -/
theorem strLt_irrefl (s : String) : strLt s s = false :=
  charListLt_irrefl s.data

/-- Widening the children's own minimum is a fixed point. -/
theorem stepStart_self (m : String) : stepStart m m = m := by
  unfold stepStart
  by_cases h : m = sentinelTime
  · simp [h]
  · simp [h, strLt_irrefl]

/-- Re-widening an already widened start bound changes nothing. -/
theorem stepStart_idem (cur m : String) :
    stepStart (stepStart cur m) m = stepStart cur m := by
  by_cases h1 : cur = sentinelTime
  · rw [show stepStart cur m = m from by simp [stepStart, h1]]
    exact stepStart_self m
  · by_cases h2 : strLt m cur = true
    · rw [show stepStart cur m = m from by simp [stepStart, h1, h2]]
      exact stepStart_self m
    · rw [show stepStart cur m = cur from by simp [stepStart, h1, h2]]
      simp [stepStart, h1, h2]

/-- Widening to the children's own maximum is a fixed point. -/
theorem stepStop_self (mM : String) : stepStop mM mM = mM := by
  unfold stepStop
  by_cases h : mM = sentinelTime
  · simp [h]
  · simp [h, strLt_irrefl]

/-- Re-widening an already widened stop bound changes nothing. -/
theorem stepStop_idem (cur mM : String) :
    stepStop (stepStop cur mM) mM = stepStop cur mM := by
  by_cases h1 : cur = sentinelTime
  · rw [show stepStop cur mM = mM from by simp [stepStop, h1]]
    exact stepStop_self mM
  · by_cases h2 : strLt cur mM = true
    · rw [show stepStop cur mM = mM from by simp [stepStop, h1, h2]]
      exact stepStop_self mM
    · rw [show stepStop cur mM = cur from by simp [stepStop, h1, h2]]
      simp [stepStop, h1, h2]

/-- The start bound after `update_time_period`, when children exist. -/
theorem updateTimePeriodBounds_start (tp : TimePeriod) (starts stops : List String)
    (m : String) (hm : pyMinStr starts = some m) :
    (updateTimePeriodBounds tp starts stops).start = stepStart tp.start m := by
  unfold updateTimePeriodBounds
  rw [hm]
  cases pyMaxStr stops <;> rfl

/-- The stop bound after `update_time_period`, when children exist. -/
theorem updateTimePeriodBounds_stop (tp : TimePeriod) (starts stops : List String)
    (mM : String) (hM : pyMaxStr stops = some mM) :
    (updateTimePeriodBounds tp starts stops).stop = stepStop tp.stop mM := by
  unfold updateTimePeriodBounds
  cases pyMinStr starts <;> rw [hM] <;> rfl

/-- `update_time_period` is idempotent once the children stop changing. -/
theorem updateTimePeriodBounds_idem (tp : TimePeriod) (starts stops : List String) :
    updateTimePeriodBounds (updateTimePeriodBounds tp starts stops) starts stops
      = updateTimePeriodBounds tp starts stops := by
  unfold updateTimePeriodBounds
  cases pyMinStr starts <;> cases pyMaxStr stops <;>
    simp [stepStart_idem, stepStop_idem]

/-- C3: with at least one child, `update_time_period` sets the start bound
to the children's minimum exactly when the current start is the sentinel
or later than that minimum, and the stop bound to the children's maximum
exactly when the current stop is the sentinel or earlier than that
maximum; an already-wider bound is kept, and a second call with unchanged
children is a no-op — for `Station` (over runs) and `Run` (over channels)
alike. -/
theorem c3_update_time_period (st : Station) (r : Run) (tp : TimePeriod)
    (starts stops : List String) (m mM : String)
    (hm : pyMinStr starts = some m) (hM : pyMaxStr stops = some mM) :
    ((tp.start = sentinelTime ∨ strLt m tp.start = true) →
        (updateTimePeriodBounds tp starts stops).start = m)
    ∧ ((tp.start ≠ sentinelTime ∧ strLt m tp.start = false) →
        (updateTimePeriodBounds tp starts stops).start = tp.start)
    ∧ ((tp.stop = sentinelTime ∨ strLt tp.stop mM = true) →
        (updateTimePeriodBounds tp starts stops).stop = mM)
    ∧ ((tp.stop ≠ sentinelTime ∧ strLt tp.stop mM = false) →
        (updateTimePeriodBounds tp starts stops).stop = tp.stop)
    ∧ (Station.update_time_period st).time_period
        = updateTimePeriodBounds st.time_period
            (st.runs.values.map (·.time_period.start))
            (st.runs.values.map (·.time_period.stop))
    ∧ (Station.update_time_period st).runs = st.runs
    ∧ (Run.update_time_period r).time_period
        = updateTimePeriodBounds r.time_period
            (r.channels.map (·.time_period.start))
            (r.channels.map (·.time_period.stop))
    ∧ (Run.update_time_period r).channels = r.channels
    ∧ Station.update_time_period (Station.update_time_period st)
        = Station.update_time_period st
    ∧ Run.update_time_period (Run.update_time_period r) = Run.update_time_period r := by
  refine ⟨?_, ?_, ?_, ?_, rfl, rfl, rfl, rfl, ?_, ?_⟩
  · intro h
    rw [updateTimePeriodBounds_start tp starts stops m hm]
    rcases h with h | h
    · simp [stepStart, h]
    · unfold stepStart
      by_cases h1 : tp.start = sentinelTime
      · simp [h1]
      · simp [h1, h]
  · intro h
    rw [updateTimePeriodBounds_start tp starts stops m hm]
    simp [stepStart, h.1, h.2]
  · intro h
    rw [updateTimePeriodBounds_stop tp starts stops mM hM]
    rcases h with h | h
    · simp [stepStop, h]
    · unfold stepStop
      by_cases h1 : tp.stop = sentinelTime
      · simp [h1]
      · simp [h1, h]
  · intro h
    rw [updateTimePeriodBounds_stop tp starts stops mM hM]
    simp [stepStop, h.1, h.2]
  · simp [Station.update_time_period, updateTimePeriodBounds_idem]
  · simp [Run.update_time_period, updateTimePeriodBounds_idem]

/-- Witness for `c3_update_time_period`: the sentinel-bounded station with
runs `[t1,t2]` and `[t3,t4]` ends up with bounds `[t1,t4]`, and a second
call is a no-op. -/
theorem c3_update_time_period_witness :
    (Station.update_time_period stTimes).time_period
        = { start := "2020-01-01T00:00:00+00:00", stop := "2020-02-05T00:00:00+00:00" }
      ∧ Station.update_time_period (Station.update_time_period stTimes)
          = Station.update_time_period stTimes := by
  have h := c3_update_time_period stTimes runT1 stTimes.time_period
      (stTimes.runs.values.map (·.time_period.start))
      (stTimes.runs.values.map (·.time_period.stop))
      "2020-01-01T00:00:00+00:00" "2020-02-05T00:00:00+00:00" (by decide) (by decide)
  refine ⟨?_, h.2.2.2.2.2.2.2.2.1⟩
  have hu := h.2.2.2.2.1
  have hs := h.1 (Or.inl rfl)
  have he := h.2.2.1 (Or.inl rfl)
  have h1 : (Station.update_time_period stTimes).time_period.start
      = "2020-01-01T00:00:00+00:00" := by rw [hu]; exact hs
  have h2 : (Station.update_time_period stTimes).time_period.stop
      = "2020-02-05T00:00:00+00:00" := by rw [hu]; exact he
  have h3 : (Station.update_time_period stTimes).time_period
      = ⟨(Station.update_time_period stTimes).time_period.start,
         (Station.update_time_period stTimes).time_period.stop⟩ := rfl
  rw [h3, h1, h2]

/-! ### Claim C8: named channel accessors and component discrimination -/

/-- C8: the claim includes `temperature` among the accessors that treat an
unset component as "not yet named" and permit it.  The `temperature`
setter lacks the `None` guard of the other five and dereferences
`value.component.lower()`, raising `AttributeError` instead of storing the
channel. -/
theorem c8_counterexample :
    auxUnset.component = none
      ∧ auxUnset.kind = ChannelKind.auxiliary
      ∧ Run.setTemperature { id := some "r" } auxUnset = .error .attributeError :=
  ⟨rfl, rfl, rfl⟩

/-- C8 (amended): for the five `ex`/`ey`/`hx`/`hy`/`hz` accessors an unset
component or one equal to the accessor name case-insensitively stores the
channel, a mismatched component raises `ValueError` with the run
untouched (the setter raises before `add_channel`), and a channel of the
wrong class raises `ValueError`; `temperature` behaves the same except
that an unset component raises `AttributeError` instead of being
permitted. -/
theorem c8_component_guard (r : Run) (v : Channel) (name : String)
    (required : ChannelKind) (s : String) :
    (v.kind = required → v.component = none →
        r.setNamedChannel name required v = .ok (r.add_channel v).1)
    ∧ (v.kind = required → v.component = some s → pyLower s = name →
        r.setNamedChannel name required v = .ok (r.add_channel v).1)
    ∧ (v.kind = required → v.component = some s → pyLower s ≠ name →
        r.setNamedChannel name required v = .error .valueError)
    ∧ (v.kind ≠ required → r.setNamedChannel name required v = .error .valueError)
    ∧ r.set_ex v = r.setNamedChannel "ex" ChannelKind.electric v
    ∧ r.set_ey v = r.setNamedChannel "ey" ChannelKind.electric v
    ∧ r.set_hx v = r.setNamedChannel "hx" ChannelKind.magnetic v
    ∧ r.set_hy v = r.setNamedChannel "hy" ChannelKind.magnetic v
    ∧ r.set_hz v = r.setNamedChannel "hz" ChannelKind.magnetic v
    ∧ (v.kind = ChannelKind.auxiliary → v.component = none →
        r.setTemperature v = .error .attributeError)
    ∧ (v.kind = ChannelKind.auxiliary → v.component = some s →
        pyLower s = "temperature" → r.setTemperature v = .ok (r.add_channel v).1)
    ∧ (v.kind = ChannelKind.auxiliary → v.component = some s →
        pyLower s ≠ "temperature" → r.setTemperature v = .error .valueError) := by
  refine ⟨?_, ?_, ?_, ?_, rfl, rfl, rfl, rfl, rfl, ?_, ?_, ?_⟩
  · intro h1 h2
    simp [Run.setNamedChannel, h1, h2]
  · intro h1 h2 h3
    simp [Run.setNamedChannel, h1, h2, h3]
  · intro h1 h2 h3
    simp [Run.setNamedChannel, h1, h2, h3]
  · intro h1
    simp [Run.setNamedChannel, h1]
  · intro h1 h2
    simp [Run.setTemperature, h1, h2]
  · intro h1 h2 h3
    simp [Run.setTemperature, h1, h2, h3]
  · intro h1 h2 h3
    simp [Run.setTemperature, h1, h2, h3]

/-- Witness for `c8_component_guard`: assigning an unnamed electric
channel through the `ex` accessor stores it. -/
theorem c8_component_guard_witness :
    Run.set_ex { id := some "r" } { kind := ChannelKind.electric }
      = .ok ((Run.add_channel { id := some "r" } { kind := ChannelKind.electric }).1) := by
  have h := c8_component_guard { id := some "r" } { kind := ChannelKind.electric }
      "ex" ChannelKind.electric "x"
  exact h.2.2.2.2.1.trans (h.1 rfl rfl)

/-! ### Claim C5: the `+` merge operator -/

/-- Key membership after `odSet`. -/
theorem odSet_mem_keys {α : Type} (home : List (Option String × α)) (k0 k : Option String)
    (v : α) : (k ∈ (odSet home k0 v).map Prod.fst) ↔ k ∈ home.map Prod.fst ∨ k = k0 := by
  rw [odSet_keys]
  by_cases hp : k0 ∈ home.map Prod.fst
  · rw [if_pos hp]
    constructor
    · exact Or.inl
    · rintro (h | rfl)
      · exact h
      · exact hp
  · rw [if_neg hp]
    simp

/-- `extend` holds exactly the union of the keys. -/
theorem ldExtend_mem_keys {α : Type} (other home : List (Option String × α))
    (k : Option String) :
    (k ∈ (ldExtend home other).map Prod.fst) ↔
      k ∈ home.map Prod.fst ∨ k ∈ other.map Prod.fst := by
  induction other generalizing home with
  | nil => simp [ldExtend]
  | cons p rest ih =>
      have hstep : ldExtend home (p :: rest) = ldExtend (odSet home p.1 p.2) rest := rfl
      rw [hstep, ih, odSet_mem_keys]
      simp [or_assoc]

/-- `extend` preserves key uniqueness of the receiver. -/
theorem ldExtend_nodup {α : Type} (other home : List (Option String × α))
    (hnd : (home.map Prod.fst).Nodup) : ((ldExtend home other).map Prod.fst).Nodup := by
  induction other generalizing home with
  | nil => exact hnd
  | cons p rest ih => exact ih _ (odSet_nodup _ _ _ hnd)

/-- Keys absent from a store look up to `none`. -/
theorem odGet_eq_none_of_not_mem {α : Type} (home : List (Option String × α))
    (k : Option String) (hk : k ∉ home.map Prod.fst) : odGet home k = none := by
  induction home with
  | nil => rfl
  | cons p rest ih =>
      obtain ⟨k0, v0⟩ := p
      simp only [List.map_cons, List.mem_cons, not_or] at hk
      have hne : k0 ≠ k := fun hh => hk.1 hh.symm
      simp [odGet, hne, ih hk.2]

/-- A key not overwritten by the other collection keeps its value under
`extend`. -/
theorem ldExtend_get_not_mem {α : Type} (other home : List (Option String × α))
    (k : Option String) (hk : k ∉ other.map Prod.fst) :
    odGet (ldExtend home other) k = odGet home k := by
  induction other generalizing home with
  | nil => rfl
  | cons p rest ih =>
      simp only [List.map_cons, List.mem_cons, not_or] at hk
      have hstep : ldExtend home (p :: rest) = ldExtend (odSet home p.1 p.2) rest := rfl
      rw [hstep, ih _ hk.2, odSet_get_other _ _ _ _ hk.1]

/-- On a key collision the other collection's value wins under `extend`. -/
theorem ldExtend_get_mem {α : Type} (other home : List (Option String × α))
    (k : Option String) (hnd : (other.map Prod.fst).Nodup)
    (hk : k ∈ other.map Prod.fst) :
    odGet (ldExtend home other) k = odGet other k := by
  induction other generalizing home with
  | nil => simp at hk
  | cons p rest ih =>
      simp only [List.map_cons, List.nodup_cons] at hnd
      have hstep : ldExtend home (p :: rest) = ldExtend (odSet home p.1 p.2) rest := rfl
      obtain ⟨k0, v0⟩ := p
      by_cases hkp : k = k0
      · subst hkp
        rw [hstep, ldExtend_get_not_mem _ _ _ hnd.1, odSet_get_self]
        simp [odGet]
      · simp only [List.map_cons, List.mem_cons] at hk
        rcases hk with hk | hk
        · exact absurd hk hkp
        · rw [hstep, ih _ hnd.2 hk]
          have hne : k0 ≠ k := fun hh => hkp hh.symm
          simp [odGet, hne]

/-- C5: the claim says `a + b` merges children by key for Runs as it does
for Stations.  `Run.channels` is a plain Python list, so `extend`
concatenates: two runs each holding an `ex` channel merge into one holding
two `ex` channels — duplicate component keys survive. -/
theorem c5_counterexample :
    (runWithEx.addRun runWithEx2).channels.map (fun c => c.component)
        = [some "ex", some "ex"]
      ∧ ¬((runWithEx.addRun runWithEx2).channels.map (fun c => c.component)).Nodup
      ∧ pyAdd (.run runWithEx) (.run runWithEx2)
          = .ok (.run (runWithEx.addRun runWithEx2)) :=
  ⟨rfl, by decide, rfl⟩

/-- C5 (amended): `a + b` returns `a` with `b`'s children absorbed; for
Stations the runs merge by key (collision: `b`'s run overwrites `a`'s in
place, so no duplicate keys arise), while for Runs the channel lists are
concatenated, so duplicate components can survive; adding anything but the
same entity type raises `TypeError`. -/
theorem c5_add_operator (a b : Station) (ra rb : Run) (sv : String) (kk : Option String)
    (hna : a.runs.keys.Nodup) (hnb : b.runs.keys.Nodup) :
    pyAdd (.station a) (.station b) = .ok (.station (a.addStation b))
    ∧ (a.addStation b).runs.keys.Nodup
    ∧ (kk ∈ (a.addStation b).runs.keys ↔ kk ∈ a.runs.keys ∨ kk ∈ b.runs.keys)
    ∧ (kk ∈ b.runs.keys → odGet (a.addStation b).runs.home kk = odGet b.runs.home kk)
    ∧ (kk ∉ b.runs.keys → odGet (a.addStation b).runs.home kk = odGet a.runs.home kk)
    ∧ (a.addStation b).id = a.id
    ∧ pyAdd (.run ra) (.run rb) = .ok (.run (ra.addRun rb))
    ∧ (ra.addRun rb).channels = ra.channels ++ rb.channels
    ∧ pyAdd (.station a) (.run ra) = .error .typeError
    ∧ pyAdd (.run ra) (.station a) = .error .typeError
    ∧ pyAdd (.station a) (.strVal sv) = .error .typeError
    ∧ pyAdd (.run ra) (.strVal sv) = .error .typeError := by
  refine ⟨rfl, ?_, ?_, ?_, ?_, rfl, rfl, rfl, rfl, rfl, rfl, rfl⟩
  · exact ldExtend_nodup _ _ (by simpa [ListDict.keys] using hna)
  · simpa [Station.addStation, ListDict.keys] using
      ldExtend_mem_keys b.runs.home a.runs.home kk
  · intro hmem
    exact ldExtend_get_mem _ _ _ (by simpa [ListDict.keys] using hnb)
      (by simpa [ListDict.keys] using hmem)
  · intro hmem
    exact ldExtend_get_not_mem _ _ _ (by simpa [ListDict.keys] using hmem)

/-- Witness for `c5_add_operator` on two concrete stations. -/
theorem c5_add_operator_witness :
    (stGood.addStation stOnlyEx).runs.keys.Nodup
      ∧ (some "b" ∈ (stGood.addStation stOnlyEx).runs.keys
          ↔ some "b" ∈ stGood.runs.keys ∨ some "b" ∈ stOnlyEx.runs.keys) := by
  have h := c5_add_operator stGood stOnlyEx runWithEx runWithEx2 "x" (some "b")
    (by decide) (by decide)
  exact ⟨h.2.1, h.2.2.1⟩

/-! ### Claim C4: `add_<child>` merge-or-append -/

/-- A cons equation for `listIndexOf`. -/
theorem listIndexOf_cons (c : Option String) (rest : List (Option String))
    (x : Option String) :
    listIndexOf (c :: rest) x
      = if c == x then some 0 else (listIndexOf rest x).map (· + 1) := rfl

/-- `listIndexOf` succeeds exactly when the key occurs. -/
theorem listIndexOf_isSome (l : List (Option String)) (x : Option String) :
    (listIndexOf l x).isSome = l.contains x := by
  induction l with
  | cons c rest ih =>
      rw [listIndexOf_cons, List.contains_cons]
      by_cases h : c = x
      · rw [if_pos (by simpa using h)]
        have : (x == c) = true := by simpa using h.symm
        rw [this]
        rfl
      · rw [if_neg (by simpa using h)]
        have : (x == c) = false := by
          simp only [beq_eq_false_iff_ne, ne_eq]
          exact fun hh => h hh.symm
        rw [this]
        simpa using ih
  | nil => rfl

/-- `contains` agrees with membership. -/
theorem contains_iff_mem_opt (l : List (Option String)) (x : Option String) :
    l.contains x = true ↔ x ∈ l :=
  List.elem_iff

/-- Replacing the value stored under a key rewrites that key's lookup. -/
theorem odGet_map_replace {α : Type} (home : List (Option String × α)) (kk : Option String)
    (rv : α) :
    odGet (home.map (fun p => if p.1 = kk then (p.1, rv) else p)) kk
      = (odGet home kk).map (fun _stored => rv) := by
  induction home with
  | nil => rfl
  | cons p rest ih =>
      obtain ⟨k0, v0⟩ := p
      by_cases h : k0 = kk
      · subst h
        rw [List.map_cons, if_pos (show ((k0, v0) : Option String × α).1 = k0 from rfl)]
        simp [odGet]
      · rw [List.map_cons, if_neg (show ¬((k0, v0) : Option String × α).1 = kk from h)]
        simp [odGet, h, ih]

/-- Replacing the value stored under a key leaves other lookups alone. -/
theorem odGet_map_replace_other {α : Type} (home : List (Option String × α))
    (kk k' : Option String) (rv : α) (h : k' ≠ kk) :
    odGet (home.map (fun p => if p.1 = kk then (p.1, rv) else p)) k' = odGet home k' := by
  induction home with
  | nil => rfl
  | cons p rest ih =>
      obtain ⟨k0, v0⟩ := p
      by_cases h0 : k0 = kk
      · subst h0
        rw [List.map_cons, if_pos (show ((k0, v0) : Option String × α).1 = k0 from rfl)]
        have hne : k0 ≠ k' := fun hh => h hh.symm
        simp [odGet, hne, ih]
      · rw [List.map_cons, if_neg (show ¬((k0, v0) : Option String × α).1 = kk from h0)]
        by_cases h1 : k0 = k'
        · simp [odGet, h1]
        · simp [odGet, h1, ih]

/-- In-place value replacement preserves the key sequence. -/
theorem keys_map_replace {α : Type} (home : List (Option String × α)) (kk : Option String)
    (rv : α) :
    (home.map (fun p => if p.1 = kk then (p.1, rv) else p)).map Prod.fst
      = home.map Prod.fst := by
  induction home with
  | nil => rfl
  | cons p rest ih =>
      obtain ⟨k0, v0⟩ := p
      by_cases h : k0 = kk
      · subst h
        rw [List.map_cons, if_pos (show ((k0, v0) : Option String × α).1 = k0 from rfl)]
        simp [ih]
      · rw [List.map_cons, if_neg (show ¬((k0, v0) : Option String × α).1 = kk from h)]
        simp [ih]

/-- Replacing by a constant value twice is the same as replacing once. -/
theorem map_replace_const_idem {α : Type} (home : List (Option String × α))
    (kk : Option String) (rv : α) :
    ((home.map (fun p => if p.1 = kk then (p.1, rv) else p)).map
        (fun p => if p.1 = kk then (p.1, rv) else p))
      = home.map (fun p => if p.1 = kk then (p.1, rv) else p) := by
  rw [List.map_map]
  apply List.map_congr_left
  intro p _
  by_cases h : p.1 = kk
  · simp [Function.comp, h]
  · simp [Function.comp, h]

/-- Replacement under an absent key is the identity. -/
theorem map_replace_of_not_mem {α : Type} (home : List (Option String × α))
    (kk : Option String) (rv : α) (h : kk ∉ home.map Prod.fst) :
    home.map (fun p => if p.1 = kk then (p.1, rv) else p) = home := by
  induction home with
  | nil => rfl
  | cons p rest ih =>
      simp only [List.map_cons, List.mem_cons, not_or] at h
      have hne : p.1 ≠ kk := fun hh => h.1 hh.symm
      simp [hne, ih h.2]

/-- Rewriting the found position with the same key keeps the position. -/
theorem listIndexOf_set (l : List (Option String)) (x : Option String) (i : Nat)
    (h : listIndexOf l x = some i) : listIndexOf (l.set i x) x = some i := by
  induction l generalizing i with
  | nil => exact absurd h (by simp [listIndexOf])
  | cons c rest ih =>
      rw [listIndexOf_cons] at h
      by_cases hc : c = x
      · rw [if_pos (by simpa using hc)] at h
        obtain rfl : (0 : Nat) = i := Option.some.inj h
        show listIndexOf (x :: rest) x = some 0
        rw [listIndexOf_cons, if_pos (by simp)]
      · rw [if_neg (by simpa using hc)] at h
        cases hrest : listIndexOf rest x with
        | none => rw [hrest] at h; exact absurd h (by simp)
        | some j =>
            rw [hrest] at h
            obtain rfl : j + 1 = i := Option.some.inj h
            rw [List.set_cons_succ, listIndexOf_cons, if_neg (by simpa using hc),
              ih j hrest]
            rfl

/-- Appending the searched key to a list that lacks it finds it at the
end. -/
theorem listIndexOf_append_self (l : List (Option String)) (x : Option String)
    (h : listIndexOf l x = none) : listIndexOf (l ++ [x]) x = some l.length := by
  induction l with
  | nil =>
      show listIndexOf [x] x = some 0
      rw [listIndexOf_cons, if_pos (by simp)]
  | cons c rest ih =>
      rw [listIndexOf_cons] at h
      by_cases hc : c = x
      · rw [if_pos (by simpa using hc)] at h
        exact absurd h (by simp)
      · rw [if_neg (by simpa using hc)] at h
        have hrest : listIndexOf rest x = none := by
          cases hr : listIndexOf rest x with
          | none => rfl
          | some j => rw [hr] at h; exact absurd h (by simp)
        rw [List.cons_append, listIndexOf_cons, if_neg (by simpa using hc), ih hrest]
        rfl

/-- Writing back the value already stored at a position is the identity. -/
theorem list_set_same {α : Type} (l : List α) (i : Nat) (a : α)
    (h : l.get? i = some a) : l.set i a = l := by
  induction l generalizing i with
  | nil => simp at h
  | cons b bs ih =>
      cases i with
      | zero =>
          rw [List.get?_cons_zero, Option.some.injEq] at h
          subst h
          rfl
      | succ j =>
          rw [List.get?_cons_succ] at h
          simp [ih j h]

/-- Adding the same channel twice changes nothing after the first add, and
the second add also emits no diagnostic. -/
theorem add_channel_idem (r : Run) (c : Channel) :
    (r.add_channel c).1.add_channel c = ((r.add_channel c).1, []) := by
  cases h : r.channel_index c.component with
  | some i =>
      have hli : listIndexOf r.channels_recorded_all c.component = some i := h
      have hidx : (({ r with channels := r.channels.set i c } : Run)).channel_index
          c.component = some i := by
        show listIndexOf ((r.channels.set i c).map (·.component)) c.component = some i
        rw [List.map_set]
        exact listIndexOf_set _ _ _ hli
      simp [Run.add_channel, h, hidx, List.set_set]
  | none =>
      have hli : listIndexOf r.channels_recorded_all c.component = none := h
      have hidx : (({ r with channels := r.channels ++ [c] } : Run)).channel_index
          c.component = some r.channels.length := by
        show listIndexOf ((r.channels ++ [c]).map (·.component)) c.component
            = some r.channels.length
        rw [List.map_append]
        simpa [Run.channels_recorded_all] using
          listIndexOf_append_self r.channels_recorded_all c.component hli
      have hset : (r.channels ++ [c]).set r.channels.length c = r.channels ++ [c] :=
        list_set_same _ _ _ (List.get?_concat_length r.channels c)
      simp [Run.add_channel, h, hidx, hset]

/-- C4: the claim says both `Station.add_run` and `Run.add_channel` merge
field-by-field into the existing child and surface a diagnostic.
`Run.add_channel` replaces the stored channel wholesale
(`self.channels[index] = channel_obj`) and logs nothing; and for a
duplicate run id of `None`, the second `Station.add_run` raises
`TypeError` out of `ListDict.__getitem__` instead of leaving things
unchanged. -/
theorem c4_counterexample :
    runWithEx.has_channel (some "ex") = true
      ∧ (runWithEx.add_channel chanEx2).2 = []
      ∧ (runWithEx.add_channel chanEx2).1.channels = [chanEx2]
      ∧ stNoIdRun.has_run none = true
      ∧ Station.add_run stNoIdRun runNoId = .error .typeError :=
  ⟨rfl, rfl, rfl, rfl, rfl⟩

/-- C4 (amended): for a run with a non-null id, `Station.add_run` merges a
duplicate into the stored child in place (count and key order unchanged,
the stored child taking the incoming field values per the spec's
`Base.update`) and emits a warning, appends a new id silently, and is
idempotent on repetition; `Run.add_channel` replaces a duplicate-component
channel wholesale at its first index with no diagnostic, appends a new
component at the end, and is idempotent on repetition. -/
theorem c4_add_child (st : Station) (r ru : Run) (c : Channel) (k : String)
    (hid : r.id = some k) :
    (st.has_run r.id = true →
      ∃ st', st.add_run r = .ok (st', ["already exists, updating metadata"])
        ∧ st'.runs.keys = st.runs.keys
        ∧ odGet st'.runs.home r.id = (odGet st.runs.home r.id).map (fun _stored => r)
        ∧ (∀ kk, kk ≠ r.id → odGet st'.runs.home kk = odGet st.runs.home kk)
        ∧ st'.add_run r = .ok (st', ["already exists, updating metadata"]))
    ∧ (st.has_run r.id = false →
        st.add_run r = .ok ({ st with runs := ⟨st.runs.home ++ [(r.id, r)]⟩ }, [])
        ∧ Station.add_run { st with runs := ⟨st.runs.home ++ [(r.id, r)]⟩ } r
            = .ok ({ st with runs := ⟨st.runs.home ++ [(r.id, r)]⟩ },
                ["already exists, updating metadata"]))
    ∧ (ru.has_channel c.component = true →
        ((ru.add_channel c).1.channels.length = ru.channels.length
          ∧ (ru.add_channel c).2 = []))
    ∧ (ru.has_channel c.component = false →
        ((ru.add_channel c).1.channels = ru.channels ++ [c]
          ∧ (ru.add_channel c).2 = []))
    ∧ (ru.add_channel c).1.add_channel c = ((ru.add_channel c).1, []) := by
  refine ⟨?_, ?_, ?_, ?_, add_channel_idem ru c⟩
  · intro hhas
    have hhas' : st.has_run (some k) = true := hid ▸ hhas
    refine ⟨{ st with runs := ⟨st.runs.home.map (fun p =>
        if p.1 = some k then (p.1, r) else p)⟩ }, ?_, ?_, ?_, ?_, ?_⟩
    · show Station.add_run st r = _
      unfold Station.add_run
      rw [hid, if_pos hhas']
      rfl
    · show (st.runs.home.map (fun p => if p.1 = some k then (p.1, r) else p)).map Prod.fst
          = st.runs.home.map Prod.fst
      exact keys_map_replace _ _ _
    · show odGet (st.runs.home.map (fun p => if p.1 = some k then (p.1, r) else p)) r.id
          = (odGet st.runs.home r.id).map (fun _stored => r)
      rw [hid]
      exact odGet_map_replace _ _ _
    · intro kk hkk
      show odGet (st.runs.home.map (fun p => if p.1 = some k then (p.1, r) else p)) kk
          = odGet st.runs.home kk
      exact odGet_map_replace_other _ _ _ _ (fun hh => hkk (hh.trans hid.symm))
    · have hhas2 : Station.has_run { st with runs := ⟨st.runs.home.map
          (fun p => if p.1 = some k then (p.1, r) else p)⟩ } (some k) = true := by
        show ((st.runs.home.map (fun p => if p.1 = some k then (p.1, r) else p)).map
            Prod.fst).contains (some k) = true
        rw [keys_map_replace]
        exact hhas'
      show Station.add_run _ r = _
      unfold Station.add_run
      rw [hid, if_pos hhas2]
      have hmap : (st.runs.home.map (fun p => if p.1 = some k then (p.1, r) else p)).map
          (fun p => if p.1 = some k then (p.1, Run.updateFields p.2 r) else p)
          = st.runs.home.map (fun p => if p.1 = some k then (p.1, r) else p) :=
        map_replace_const_idem st.runs.home (some k) r
      rw [show ({ st with runs := ⟨st.runs.home.map
            (fun p => if p.1 = some k then (p.1, r) else p)⟩ } : Station).runs.home
          = st.runs.home.map (fun p => if p.1 = some k then (p.1, r) else p) from rfl,
        hmap]
  · intro hhas
    have hmem : r.id ∉ st.runs.home.map Prod.fst := by
      intro hmem2
      have hcon : st.has_run r.id = true :=
        (contains_iff_mem_opt (st.runs.home.map Prod.fst) r.id).2 hmem2
      rw [hcon] at hhas
      cases hhas
    have hra : runsAppend st.runs r = ⟨st.runs.home ++ [(r.id, r)]⟩ := by
      unfold runsAppend
      rw [odSet_of_not_mem _ _ _ hmem]
    constructor
    · unfold Station.add_run
      rw [if_neg (by simp [hhas]), hra]
    · rw [hid] at hmem
      have hhas2 : Station.has_run { st with runs := ⟨st.runs.home ++ [(some k, r)]⟩ }
          (some k) = true := by
        apply (contains_iff_mem_opt _ _).2
        show some k ∈ (st.runs.home ++ [(some k, r)]).map Prod.fst
        simp
      unfold Station.add_run
      rw [hid, if_pos hhas2]
      have hmap : (st.runs.home ++ [(some k, r)]).map
          (fun p => if p.1 = some k then (p.1, Run.updateFields p.2 r) else p)
          = st.runs.home ++ [(some k, r)] := by
        have hfun : (fun p => if p.1 = some k then (p.1, Run.updateFields p.2 r)
              else (p : Option String × Run))
            = (fun p => if p.1 = some k then (p.1, r) else p) := rfl
        rw [hfun, List.map_append, map_replace_of_not_mem _ _ _ hmem]
        simp
      rw [show ({ st with runs := ⟨st.runs.home ++ [(some k, r)]⟩ } : Station).runs.home
          = st.runs.home ++ [(some k, r)] from rfl, hmap]
  · intro hhas
    have hsome : (listIndexOf ru.channels_recorded_all c.component).isSome = true := by
      rw [listIndexOf_isSome]
      exact hhas
    cases h : ru.channel_index c.component with
    | none =>
        rw [show listIndexOf ru.channels_recorded_all c.component
            = ru.channel_index c.component from rfl, h] at hsome
        cases hsome
    | some i => exact ⟨by simp [Run.add_channel, h], by simp [Run.add_channel, h]⟩
  · intro hhas
    have hnone : ru.channel_index c.component = none := by
      cases h : ru.channel_index c.component with
      | none => rfl
      | some i =>
          have h1 : (listIndexOf ru.channels_recorded_all c.component).isSome = true := by
            rw [show listIndexOf ru.channels_recorded_all c.component
                = ru.channel_index c.component from rfl, h]
            rfl
          rw [listIndexOf_isSome] at h1
          have h2 : ru.has_channel c.component = true := h1
          rw [h2] at hhas
          cases hhas
    exact ⟨by simp [Run.add_channel, hnone], by simp [Run.add_channel, hnone]⟩

/-- Witness for `c4_add_child`: adding `runGood` (id `"a"`) to `stGood`,
which already holds it, updates in place with the warning and unchanged
keys, and the repeated add is idempotent. -/
theorem c4_add_child_witness :
    ∃ st', stGood.add_run runGood = .ok (st', ["already exists, updating metadata"])
      ∧ st'.runs.keys = stGood.runs.keys
      ∧ odGet st'.runs.home runGood.id
          = (odGet stGood.runs.home runGood.id).map (fun _stored => runGood)
      ∧ (∀ kk, kk ≠ runGood.id → odGet st'.runs.home kk = odGet stGood.runs.home kk)
      ∧ st'.add_run runGood = .ok (st', ["already exists, updating metadata"]) :=
  (c4_add_child stGood runGood runWithEx chanEx2 "a" rfl).1 (by decide)

/-! ### Claim C1: the EMTF-XML round trip -/

/-- A component present among the channels is found by `get_channel`,
which hands back a channel carrying it. -/
theorem get_channel_mem_comp (r : Run) (x : Option String)
    (hx : x ∈ r.channels.map (·.component)) :
    ∃ c, r.get_channel x = some c ∧ c.component = x ∧ c ∈ r.channels := by
  obtain ⟨c, hc, hcx⟩ := List.mem_map.1 hx
  have hsome : (r.channels.reverse.find? (fun ch => ch.component == x)).isSome = true := by
    rw [List.find?_isSome]
    exact ⟨c, by simpa using hc, by simp [hcx]⟩
  obtain ⟨c', hc'⟩ := Option.isSome_iff_exists.1 hsome
  refine ⟨c', hc', by simpa using List.find?_some hc', ?_⟩
  have := List.mem_of_find?_eq_some hc'
  simpa using this

/-- With pairwise-distinct components, `get_channel` finds exactly the
channel asked about. -/
theorem get_channel_of_mem (r : Run) (c : Channel)
    (hnd : (r.channels.map (·.component)).Nodup) (hc : c ∈ r.channels) :
    r.get_channel c.component = some c := by
  obtain ⟨c', hg, hcomp, hm⟩ := get_channel_mem_comp r c.component
    (List.mem_map_of_mem _ hc)
  rw [hg, List.inj_on_of_nodup_map hnd hm hc hcomp]

/-- `setLastChannel` never touches the run's scalar fields. -/
theorem setLastChannel_fields (r : Run) (x : Option String) (c : Channel) :
    (r.setLastChannel x c).id = r.id ∧ (r.setLastChannel x c).sample_rate = r.sample_rate := by
  unfold Run.setLastChannel
  cases listIndexOf (r.channels.reverse.map (·.component)) x <;> exact ⟨rfl, rfl⟩

/-- `listIndexOf` finds the key it reports. -/
theorem listIndexOf_get (l : List (Option String)) (x : Option String) (i : Nat)
    (h : listIndexOf l x = some i) : l.get? i = some x := by
  induction l generalizing i with
  | nil => exact absurd h (by simp [listIndexOf])
  | cons c rest ih =>
      rw [listIndexOf_cons] at h
      by_cases hc : c = x
      · rw [if_pos (by simpa using hc)] at h
        obtain rfl : (0 : Nat) = i := Option.some.inj h
        rw [List.get?_cons_zero, hc]
      · rw [if_neg (by simpa using hc)] at h
        cases hrest : listIndexOf rest x with
        | none => rw [hrest] at h; exact absurd h (by simp)
        | some j =>
            rw [hrest] at h
            obtain rfl : j + 1 = i := Option.some.inj h
            rw [List.get?_cons_succ]
            exact ih j hrest

/-- Writing a channel that carries the searched component back over the
found position leaves the component sequence unchanged. -/
theorem setLastChannel_map_comp (r : Run) (x : Option String) (c : Channel)
    (hc : c.component = x) :
    (r.setLastChannel x c).channels.map (·.component) = r.channels.map (·.component) := by
  unfold Run.setLastChannel
  cases h : listIndexOf (r.channels.reverse.map (·.component)) x with
  | none => rfl
  | some j =>
      have hget := listIndexOf_get _ _ _ h
      show ((r.channels.reverse.set j c).reverse).map (·.component)
          = r.channels.map (·.component)
      rw [List.map_reverse, List.map_set, hc, list_set_same _ _ _ hget, List.map_reverse,
        List.reverse_reverse]

/-- The layout patch never renames the channel. -/
theorem layoutPatch_component (c : Channel) (ch : XChannel) :
    (layoutPatch c ch).component = c.component := by
  unfold layoutPatch
  by_cases h1 : c.component = some "hx" ∨ c.component = some "hy" ∨ c.component = some "hz"
  · simp [h1]
  · by_cases h2 : c.component = some "ex" ∨ c.component = some "ey"
    · simp [h1, h2]
    · simp [h1, h2]

/-- One site-layout record whose name resolves to a present accessor
patches the run in place, preserving identity, sampling rate and the
component sequence. -/
theorem applyLayoutChannel_ok (r : Run) (ch : XChannel) (nm0 : String)
    (hname : ch.name = some nm0) (hacc : pyLower nm0 ∈ accessorNames)
    (hmem : some (pyLower nm0) ∈ r.channels.map (·.component)) :
    ∃ r', applyLayoutChannel r ch = .ok r'
      ∧ r'.channels.map (·.component) = r.channels.map (·.component)
      ∧ r'.id = r.id ∧ r'.sample_rate = r.sample_rate := by
  obtain ⟨c, hgc, hcomp, -⟩ := get_channel_mem_comp r (some (pyLower nm0)) hmem
  refine ⟨r.setLastChannel (some (pyLower nm0)) (layoutPatch c ch), ?_, ?_, ?_, ?_⟩
  · unfold applyLayoutChannel
    rw [hname]
    show (if pyLower nm0 ∉ accessorNames then Except.error PyErr.attributeError
      else match r.get_channel (some (pyLower nm0)) with
        | none => Except.error PyErr.attributeError
        | some c => Except.ok (r.setLastChannel (some (pyLower nm0)) (layoutPatch c ch))) = _
    rw [if_neg (not_not_intro hacc), hgc]
  · exact setLastChannel_map_comp r _ _ ((layoutPatch_component c ch).trans hcomp)
  · exact (setLastChannel_fields r _ _).1
  · exact (setLastChannel_fields r _ _).2

/-- The full site-layout pass over records named `Hx`/`Ex`/`Ey` succeeds
on a run carrying the five standard components and preserves identity,
sampling rate and the component sequence. -/
theorem layout_fold_ok (layout : List XChannel) (r : Run)
    (hlay : ∀ ch ∈ layout,
      ch.name = some "Hx" ∨ ch.name = some "Ex" ∨ ch.name = some "Ey")
    (hful : r.channels.map (·.component)
      = [some "hx", some "hy", some "hz", some "ex", some "ey"]) :
    ∃ r', layout.foldlM applyLayoutChannel r = .ok r'
      ∧ r'.channels.map (·.component) = r.channels.map (·.component)
      ∧ r'.id = r.id ∧ r'.sample_rate = r.sample_rate := by
  induction layout generalizing r with
  | nil => exact ⟨r, rfl, rfl, rfl, rfl⟩
  | cons ch rest ih =>
      have hstep : ∃ r1, applyLayoutChannel r ch = .ok r1
          ∧ r1.channels.map (·.component) = r.channels.map (·.component)
          ∧ r1.id = r.id ∧ r1.sample_rate = r.sample_rate := by
        rcases hlay ch (by simp) with hn | hn | hn
        · exact applyLayoutChannel_ok r ch "Hx" hn (by decide) (by rw [hful]; decide)
        · exact applyLayoutChannel_ok r ch "Ex" hn (by decide) (by rw [hful]; decide)
        · exact applyLayoutChannel_ok r ch "Ey" hn (by decide) (by rw [hful]; decide)
      obtain ⟨r1, h1, hcomp1, hid1, hsr1⟩ := hstep
      obtain ⟨r2, h2, hcomp2, hid2, hsr2⟩ := ih r1
        (fun c hc => hlay c (by simp [hc])) (hcomp1.trans hful)
      refine ⟨r2, ?_, hcomp2.trans hcomp1, hid2.trans hid1, hsr2.trans hsr1⟩
      rw [List.foldlM_cons, h1]
      simpa using h2

/-- Adding a channel whose component is not yet present appends it. -/
theorem add_channel_append (r : Run) (c : Channel)
    (h : c.component ∉ r.channels.map (·.component)) :
    r.add_channel c = ({ r with channels := r.channels ++ [c] }, []) := by
  have hnone : r.channel_index c.component = none := by
    cases hidx : r.channel_index c.component with
    | none => rfl
    | some i =>
        have h1 : (listIndexOf r.channels_recorded_all c.component).isSome = true := by
          rw [show listIndexOf r.channels_recorded_all c.component
              = r.channel_index c.component from rfl, hidx]
          rfl
        rw [listIndexOf_isSome] at h1
        exact absurd ((contains_iff_mem_opt _ _).1 h1) h
  simp [Run.add_channel, hnone]

/-- The dipole branch of the `station_metadata` setter on a present
electric channel: it emits a dipole record and a site-layout channel, both
named by the capitalised component, and both electrodes carry a location
tag. -/
theorem writeDipole_good (r : Run) (comp : String) (c : Channel)
    (hg : r.get_channel (some comp) = some c) (hk : c.kind = ChannelKind.electric) :
    ∃ dp chx, writeDipole r comp = some (dp, chx)
      ∧ dp.name = some (pyCapitalize comp) ∧ chx.name = some (pyCapitalize comp)
      ∧ ∀ pot ∈ dp.electrode, pot.location ≠ none := by
  refine ⟨{ name := some (pyCapitalize comp), azimuth := c.translated_azimuth,
            length := c.dipole_length, manufacturer := c.positive.manufacturer,
            type := c.positive.type,
            electrode :=
              [ { number := c.positive.id,
                  location := some (if comp = "ex" then "n" else "e"),
                  value := c.positive.type },
                { number := c.negative.id,
                  location := some (if comp = "ex" then "s" else "w"),
                  value := c.negative.type } ] },
          { name := some (pyCapitalize comp),
            x := some (c.negative.x.getD 0), y := some (c.negative.y.getD 0),
            z := some (c.negative.z.getD 0),
            x2 := some (c.positive.x2.getD 0), y2 := some (c.positive.y2.getD 0),
            z2 := some (c.positive.z2.getD 0), orientation := c.translated_azimuth },
          ?_, rfl, rfl, ?_⟩
  · simp [writeDipole, hg, hk]
  · intro pot hp
    rcases List.mem_cons.1 hp with rfl | hp2
    · simp
    · rcases List.mem_cons.1 hp2 with rfl | hp3
      · simp
      · cases hp3

/-- The magnetometer loop of the `station_metadata` setter on a run whose
`hx` channel carries a fluxgate NIMS/LEMI sensor: the loop breaks after
the single `hx` magnetometer, emitting one input channel named `Hx`. -/
theorem writeMagLoop_good (r : Run) (c : Channel)
    (hg : r.get_channel (some "hx") = some c)
    (hname : c.sensor.name = some "NIMS" ∨ c.sensor.name = some "LEMI")
    (htype : c.sensor.type = some "fluxgate") :
    ∃ mag chIn, writeMagLoop r ["hx", "hy", "hz"] = .ok ([mag], [chIn], [])
      ∧ chIn.name = some "Hx" := by
  refine ⟨{ id := c.sensor.id, name := c.sensor.name,
            manufacturer := c.sensor.manufacturer, type := c.sensor.type },
          { name := some (pyCapitalize "hx"),
            x := some (c.location.x.getD 0), y := some (c.location.y.getD 0),
            z := some (c.location.z.getD 0), orientation := c.translated_azimuth },
          ?_, rfl⟩
  rcases hname with h | h <;> simp [writeMagLoop, hg, h, htype]

/-- The per-run record of the `station_metadata` setter on a round-trip
friendly run: the write succeeds, the field-notes record pairs with the
run, and every emitted site-layout channel is named `Hx`, `Ex` or `Ey`. -/
theorem writeRunRecord_good (r : Run) (hgr : GoodRun r) :
    ∃ fn ins outs, writeRunRecord r = .ok (fn, ins, outs)
      ∧ goodPair r fn
      ∧ ∀ ch ∈ ins ++ outs,
          ch.name = some "Hx" ∨ ch.name = some "Ex" ∨ ch.name = some "Ey" := by
  have hhx : some "hx" ∈ r.channels.map (·.component) :=
    hgr.comps_perm.mem_iff.2 (by simp)
  have hhex : some "ex" ∈ r.channels.map (·.component) :=
    hgr.comps_perm.mem_iff.2 (by simp)
  have hhey : some "ey" ∈ r.channels.map (·.component) :=
    hgr.comps_perm.mem_iff.2 (by simp)
  obtain ⟨cx, hgx, hcompx, hmemx⟩ := get_channel_mem_comp r (some "hx") hhx
  obtain ⟨ce, hge, hcompe, hmeme⟩ := get_channel_mem_comp r (some "ex") hhex
  obtain ⟨cf, hgf, hcompf, hmemf⟩ := get_channel_mem_comp r (some "ey") hhey
  obtain ⟨hsname, hstype⟩ := hgr.hx_fluxgate cx hmemx hcompx
  have hke : ce.kind = ChannelKind.electric := hgr.kinds_ele ce hmeme (Or.inl hcompe)
  have hkf : cf.kind = ChannelKind.electric := hgr.kinds_ele cf hmemf (Or.inr hcompf)
  obtain ⟨mag, chIn, hmagl, hchin⟩ := writeMagLoop_good r cx hgx hsname hstype
  obtain ⟨dpx, chxx, hdx, hdxn, hchxn, hdxel⟩ := writeDipole_good r "ex" ce hge hke
  obtain ⟨dpy, chxy, hdy, hdyn, hchyn, hdyel⟩ := writeDipole_good r "ey" cf hgf hkf
  refine ⟨{ run := r.id, sampling_rate := r.sample_rate,
            start := some r.time_period.start, stop := some r.time_period.stop,
            instrument := { id := r.data_logger.id, name := r.data_logger.type,
                            manufacturer := r.data_logger.manufacturer },
            magnetometer := [mag], dipole := [dpx, dpy] },
          [chIn], [chxx, chxy], ?_, ?_, ?_⟩
  · simp [writeRunRecord, hmagl, hdx, hdy]
  · refine ⟨rfl, rfl, ⟨mag, rfl⟩, ?_, ?_⟩
    · rw [show (([dpx, dpy] : List XDipole).map (·.name)) = [dpx.name, dpy.name] from rfl,
        hdxn, hdyn]
      decide
    · intro dp hdp
      have hdp' : dp = dpx ∨ dp = dpy := by simpa using hdp
      rcases hdp' with rfl | rfl
      · exact hdxel
      · exact hdyel
  · intro ch hch
    have hch' : ch = chIn ∨ ch = chxx ∨ ch = chxy := by simpa using hch
    rcases hch' with rfl | rfl | rfl
    · exact Or.inl hchin
    · exact Or.inr (Or.inl (by rw [hchxn]; decide))
    · exact Or.inr (Or.inr (by rw [hchyn]; decide))

/-- The field-notes loop of the setter over a list of round-trip friendly
runs: each run pairs with its record, and the accumulated site layout only
holds channels named `Hx`, `Ex` or `Ey`. -/
theorem writeRuns_good (rs : List Run) (h : ∀ r ∈ rs, GoodRun r) :
    ∃ fns ins outs, writeRuns rs = .ok (fns, ins, outs)
      ∧ List.Forall₂ goodPair rs fns
      ∧ ∀ ch ∈ ins ++ outs,
          ch.name = some "Hx" ∨ ch.name = some "Ex" ∨ ch.name = some "Ey" := by
  induction rs with
  | nil => exact ⟨[], [], [], rfl, List.Forall₂.nil, by simp⟩
  | cons r rest ih =>
      obtain ⟨fn, ins1, outs1, h1, hgp, hnm1⟩ := writeRunRecord_good r (h r (by simp))
      obtain ⟨fns, ins2, outs2, h2, hgps, hnm2⟩ := ih (fun x hx => h x (by simp [hx]))
      refine ⟨fn :: fns, ins1 ++ ins2, outs1 ++ outs2, ?_,
        List.Forall₂.cons hgp hgps, ?_⟩
      · simp [writeRuns, h1, h2]
      · intro ch hch
        rcases List.mem_append.1 hch with hc | hc
        · rcases List.mem_append.1 hc with hc2 | hc2
          · exact hnm1 ch (List.mem_append.2 (Or.inl hc2))
          · exact hnm2 ch (List.mem_append.2 (Or.inl hc2))
        · rcases List.mem_append.1 hc with hc2 | hc2
          · exact hnm1 ch (List.mem_append.2 (Or.inr hc2))
          · exact hnm2 ch (List.mem_append.2 (Or.inr hc2))

/-- One electrode assignment of the `station_metadata` getter, on an
electrode that carries a location tag: it succeeds and never touches the
channel's component or class. -/
theorem applyElectrode_ok (dp : XDipole) (c : Channel) (pot : XElectrode)
    (h : pot.location ≠ none) :
    ∃ c', applyElectrode dp c pot = .ok c'
      ∧ c'.component = c.component ∧ c'.kind = c.kind := by
  cases hp : pot.location with
  | none => exact absurd hp h
  | some loc =>
      simp only [applyElectrode, hp]
      by_cases h1 : pyLower loc = "n" ∨ pyLower loc = "e"
      · rw [if_pos h1]
        exact ⟨_, rfl, rfl, rfl⟩
      · rw [if_neg h1]
        by_cases h2 : pyLower loc = "s" ∨ pyLower loc = "w"
        · rw [if_pos h2]
          exact ⟨_, rfl, rfl, rfl⟩
        · rw [if_neg h2]
          exact ⟨c, rfl, rfl, rfl⟩

/-- The electrode loop of the getter, when every electrode carries a
location tag. -/
theorem electrodes_fold_ok (dp : XDipole) (pots : List XElectrode)
    (h : ∀ pot ∈ pots, pot.location ≠ none) (c : Channel) :
    ∃ c', pots.foldlM (applyElectrode dp) c = .ok c'
      ∧ c'.component = c.component ∧ c'.kind = c.kind := by
  induction pots generalizing c with
  | nil => exact ⟨c, rfl, rfl, rfl⟩
  | cons pot rest ih =>
      obtain ⟨c1, h1, hcomp1, hk1⟩ := applyElectrode_ok dp c pot (h pot (by simp))
      obtain ⟨c2, h2, hcomp2, hk2⟩ := ih (fun p hp => h p (by simp [hp])) c1
      refine ⟨c2, ?_, hcomp2.trans hcomp1, hk2.trans hk1⟩
      rw [List.foldlM_cons, h1]
      simpa using h2

/-- One dipole record of the getter, when named and with located
electrodes: it reconstructs an electric channel on the lower-cased
name. -/
theorem readDipoleChannel_ok (dp : XDipole) (nm : String) (hname : dp.name = some nm)
    (hele : ∀ pot ∈ dp.electrode, pot.location ≠ none) :
    ∃ c, readDipoleChannel dp = .ok (some c)
      ∧ c.component = some (pyLower nm) ∧ c.kind = ChannelKind.electric := by
  obtain ⟨c', hf, hcomp, hk⟩ := electrodes_fold_ok dp dp.electrode hele
    { kind := .electric, component := some (pyLower nm),
      translated_azimuth := dp.azimuth, dipole_length := dp.length }
  refine ⟨c', ?_, hcomp, hk⟩
  simp only [readDipoleChannel, hname, hf]

/-- The single-magnetometer branch of the getter: a lone magnetometer
reconstructs the full `hx`/`hy`/`hz` triaxial set on its sensor
metadata. -/
theorem readMagnetometers_single (fn : XRun) (mag : XMagnetometer)
    (h : fn.magnetometer = [mag]) :
    readMagnetometers fn = ["hx", "hy", "hz"].map (fun comp =>
      { kind := .magnetic, component := some comp,
        sensor := { id := mag.id, name := mag.name,
                    manufacturer := mag.manufacturer, type := mag.type } }) := by
  unfold readMagnetometers
  rw [h]

/-- The two-dipole fold of the getter over a run, with both reconstructed
channels fresh: both are appended in order. -/
theorem dipole_fold_two (r : Run) (dpx dpy : XDipole) (cx cy : Channel)
    (hcx : readDipoleChannel dpx = .ok (some cx))
    (hcy : readDipoleChannel dpy = .ok (some cy))
    (hfx : cx.component ∉ r.channels.map (·.component))
    (hfy : cy.component ∉ (r.channels ++ [cx]).map (·.component)) :
    [dpx, dpy].foldlM (fun r dp =>
        match readDipoleChannel dp with
        | Except.error e => Except.error e
        | Except.ok none => Except.ok r
        | Except.ok (some c) => Except.ok (r.add_channel c).1) r
      = Except.ok { r with channels := (r.channels ++ [cx]) ++ [cy] } := by
  have h1 : r.add_channel cx = ({ r with channels := r.channels ++ [cx] }, []) :=
    add_channel_append r cx hfx
  have h2 : ({ r with channels := r.channels ++ [cx] } : Run).add_channel cy
      = ({ r with channels := (r.channels ++ [cx]) ++ [cy] }, []) :=
    add_channel_append { r with channels := r.channels ++ [cx] } cy hfy
  simp only [List.foldlM_cons, List.foldlM_nil, hcx, hcy]
  show Except.ok (((r.add_channel cx).1.add_channel cy).1)
      = Except.ok { r with channels := (r.channels ++ [cx]) ++ [cy] }
  rw [h1]
  show Except.ok (({ r with channels := r.channels ++ [cx] } : Run).add_channel cy).1
      = Except.ok { r with channels := (r.channels ++ [cx]) ++ [cy] }
  rw [h2]

/-- One field-notes record of the round-trip shape turned into a run:
triaxial magnetics from the lone magnetometer, then the `ex`/`ey`
electrics from the two dipoles, in order. -/
theorem readFieldNotesRun_shape (fn : XRun) (mag : XMagnetometer) (dpx dpy : XDipole)
    (hmag : fn.magnetometer = [mag]) (hdip : fn.dipole = [dpx, dpy])
    (hnx : dpx.name = some "Ex") (hny : dpy.name = some "Ey")
    (hex : ∀ pot ∈ dpx.electrode, pot.location ≠ none)
    (hey : ∀ pot ∈ dpy.electrode, pot.location ≠ none) :
    ∃ r, readFieldNotesRun fn = .ok r
      ∧ r.id = fn.run ∧ r.sample_rate = fn.sampling_rate
      ∧ r.channels.map (·.component)
          = [some "hx", some "hy", some "hz", some "ex", some "ey"] := by
  obtain ⟨cx, hcx, hcompx0, -⟩ := readDipoleChannel_ok dpx "Ex" hnx hex
  obtain ⟨cy, hcy, hcompy0, -⟩ := readDipoleChannel_ok dpy "Ey" hny hey
  have hcompx : cx.component = some "ex" := by rw [hcompx0]; rfl
  have hcompy : cy.component = some "ey" := by rw [hcompy0]; rfl
  have hr1 : readFieldNotesRun fn
      = [dpx, dpy].foldlM (fun r dp =>
          match readDipoleChannel dp with
          | Except.error e => Except.error e
          | Except.ok none => Except.ok r
          | Except.ok (some c) => Except.ok (r.add_channel c).1)
        { id := fn.run, sample_rate := fn.sampling_rate,
          data_logger := { id := fn.instrument.id, type := fn.instrument.name,
                           manufacturer := fn.instrument.manufacturer },
          time_period := { start := fn.start.getD sentinelTime,
                           stop := fn.stop.getD sentinelTime },
          channels :=
            [{ kind := .magnetic, component := some "hx",
               sensor := { id := mag.id, name := mag.name,
                           manufacturer := mag.manufacturer, type := mag.type } },
             { kind := .magnetic, component := some "hy",
               sensor := { id := mag.id, name := mag.name,
                           manufacturer := mag.manufacturer, type := mag.type } },
             { kind := .magnetic, component := some "hz",
               sensor := { id := mag.id, name := mag.name,
                           manufacturer := mag.manufacturer, type := mag.type } }] } := by
    unfold readFieldNotesRun
    rw [readMagnetometers_single fn mag hmag, hdip]
    rfl
  have hfold := dipole_fold_two
    { id := fn.run, sample_rate := fn.sampling_rate,
      data_logger := { id := fn.instrument.id, type := fn.instrument.name,
                       manufacturer := fn.instrument.manufacturer },
      time_period := { start := fn.start.getD sentinelTime,
                       stop := fn.stop.getD sentinelTime },
      channels :=
        [{ kind := .magnetic, component := some "hx",
           sensor := { id := mag.id, name := mag.name,
                       manufacturer := mag.manufacturer, type := mag.type } },
         { kind := .magnetic, component := some "hy",
           sensor := { id := mag.id, name := mag.name,
                       manufacturer := mag.manufacturer, type := mag.type } },
         { kind := .magnetic, component := some "hz",
           sensor := { id := mag.id, name := mag.name,
                       manufacturer := mag.manufacturer, type := mag.type } }] }
    dpx dpy cx cy hcx hcy
    (by rw [hcompx]; simp)
    (by rw [hcompy]; simp [hcompx])
  exact ⟨_, hr1.trans hfold, rfl, rfl, by simp [hcompx, hcompy]⟩

/-- Adding a run whose id is not yet a key appends it at the end of the
collection. -/
theorem add_run_append (st : Station) (r : Run) (h : r.id ∉ st.runs.keys) :
    st.add_run r = .ok ({ st with runs := ⟨st.runs.home ++ [(r.id, r)]⟩ }, []) := by
  have hhas : st.has_run r.id = false := by
    rw [show st.has_run r.id = st.runs.keys.contains r.id from rfl]
    exact Bool.eq_false_iff.2 (fun hc => h ((contains_iff_mem_opt _ _).1 hc))
  unfold Station.add_run
  rw [hhas, if_neg (by simp)]
  rw [show runsAppend st.runs r = (⟨odSet st.runs.home r.id r⟩ : ListDict Run) from rfl,
    odSet_of_not_mem st.runs.home r.id r h]

/-- A `Forall₂` relation whose first component forces equal ids transports
the id sequence. -/
theorem forall2_id_map (rs rs' : List Run)
    (h : List.Forall₂ (fun r r' => r'.id = r.id ∧ r'.sample_rate = r.sample_rate
        ∧ r'.channels.map (·.component)
            = [some "hx", some "hy", some "hz", some "ex", some "ey"]) rs rs') :
    rs'.map (·.id) = rs.map (·.id) := by
  induction h with
  | nil => rfl
  | cons h1 h2 ih => simp [h1.1, ih]

/-- Turning the exact reconstructed component sequence into the
permutation the round-trip claim compares, via each source run's own
component permutation. -/
theorem forall2_perm_of_eq (rs rs' : List Run)
    (h : List.Forall₂ (fun r r' => r'.id = r.id ∧ r'.sample_rate = r.sample_rate
        ∧ r'.channels.map (·.component)
            = [some "hx", some "hy", some "hz", some "ex", some "ey"]) rs rs')
    (hg : ∀ r ∈ rs, GoodRun r) :
    List.Forall₂ (fun r r' => r'.id = r.id ∧ r'.sample_rate = r.sample_rate
        ∧ (r'.channels.map (·.component)).Perm (r.channels.map (·.component))) rs rs' := by
  revert hg
  induction h with
  | nil => intro hg; exact List.Forall₂.nil
  | cons h1 h2 ih =>
      intro hg
      refine List.Forall₂.cons ⟨h1.1, h1.2.1, ?_⟩ (ih (fun x hx => hg x (by simp [hx])))
      rw [h1.2.2]
      exact ((hg _ (by simp)).comps_perm).symm

/-- The field-notes loop of the `station_metadata` getter over round-trip
shaped records: every record is reconstructed and appended, in order,
under its run id. -/
theorem read_fold_ok (rs : List Run) (fns : List XRun) (layout : List XChannel)
    (hlay : ∀ ch ∈ layout,
      ch.name = some "Hx" ∨ ch.name = some "Ex" ∨ ch.name = some "Ey")
    (hpairs : List.Forall₂ goodPair rs fns) :
    (∀ r ∈ rs, GoodRun r) → (rs.map (·.id)).Nodup →
    ∀ st0 : Station, (∀ r ∈ rs, r.id ∉ st0.runs.keys) →
    ∃ rs', fns.foldlM (readRunStep layout) st0
        = .ok { st0 with runs := ⟨st0.runs.home ++ rs'.map (fun r => (r.id, r))⟩ }
      ∧ List.Forall₂ (fun r r' => r'.id = r.id ∧ r'.sample_rate = r.sample_rate
          ∧ r'.channels.map (·.component)
              = [some "hx", some "hy", some "hz", some "ex", some "ey"]) rs rs' := by
  induction hpairs with
  | nil =>
      intro _ _ st0 _
      refine ⟨[], ?_, List.Forall₂.nil⟩
      simp only [List.foldlM_nil, List.map_nil, List.append_nil]
      rfl
  | @cons r fn rest frest h1 h2 ih =>
      intro hgood hnd st0 hfresh
      obtain ⟨hrun, hrate, ⟨mag, hmag⟩, hdipn, hele⟩ := h1
      have hgr : GoodRun r := hgood r (by simp)
      obtain ⟨dpx, dpy, hdip, hnx, hny⟩ :
          ∃ dpx dpy, fn.dipole = [dpx, dpy]
            ∧ dpx.name = some "Ex" ∧ dpy.name = some "Ey" := by
        cases hd : fn.dipole with
        | nil => rw [hd] at hdipn; simp at hdipn
        | cons a t =>
            cases t with
            | nil => rw [hd] at hdipn; simp at hdipn
            | cons b t2 =>
                cases t2 with
                | nil =>
                    rw [hd] at hdipn
                    simp at hdipn
                    exact ⟨a, b, rfl, hdipn.1, hdipn.2⟩
                | cons e t3 => rw [hd] at hdipn; simp at hdipn
      have hex : ∀ pot ∈ dpx.electrode, pot.location ≠ none :=
        fun pot hp => hele dpx (by rw [hdip]; simp) pot hp
      have hey : ∀ pot ∈ dpy.electrode, pot.location ≠ none :=
        fun pot hp => hele dpy (by rw [hdip]; simp) pot hp
      obtain ⟨r1, hread, hid1, hsr1, hcomp1⟩ :=
        readFieldNotesRun_shape fn mag dpx dpy hmag hdip hnx hny hex hey
      obtain ⟨r2, hlf, hcomp2, hid2, hsr2⟩ := layout_fold_ok layout r1 hlay hcomp1
      have hid : r2.id = r.id := by rw [hid2, hid1, hrun]
      have hguard : ¬(fn.sampling_rate = some 0 ∨ fn.sampling_rate = none) := by
        rw [hrate]
        push_neg
        exact ⟨hgr.rate_nonzero, hgr.rate_some⟩
      have hfr : r2.id ∉ st0.runs.keys := by rw [hid]; exact hfresh r (by simp)
      have hadd := add_run_append st0 r2 hfr
      have hstep : readRunStep layout st0 fn
          = .ok { st0 with runs := ⟨st0.runs.home ++ [(r2.id, r2)]⟩ } := by
        unfold readRunStep
        rw [if_neg hguard]
        simp only [hread, hlf, hadd]
      have hfresh' : ∀ x ∈ rest, x.id ∉
          ({ st0 with runs := ⟨st0.runs.home ++ [(r2.id, r2)]⟩ } : Station).runs.keys := by
        intro x hx
        have hx1 : x.id ∉ st0.runs.keys := hfresh x (by simp [hx])
        have hx2 : x.id ≠ r.id := by
          intro he
          have hmr : r.id ∈ rest.map (·.id) := by
            rw [← he]
            exact List.mem_map_of_mem _ hx
          exact (List.nodup_cons.1 hnd).1 hmr
        show x.id ∉ (st0.runs.home ++ [(r2.id, r2)]).map Prod.fst
        rw [List.map_append]
        intro hmem
        rcases List.mem_append.1 hmem with hm | hm
        · exact hx1 hm
        · exact hx2 (by rw [show x.id = r2.id from by simpa using hm, hid])
      obtain ⟨rs', hfold, hpairs'⟩ := ih (fun x hx => hgood x (by simp [hx]))
        (List.nodup_cons.1 hnd).2 _ hfresh'
      refine ⟨r2 :: rs', ?_,
        List.Forall₂.cons ⟨hid, by rw [hsr2, hsr1, hrate], hcomp2.trans hcomp1⟩ hpairs'⟩
      rw [List.foldlM_cons, hstep]
      show frest.foldlM (readRunStep layout)
          { st0 with runs := ⟨st0.runs.home ++ [(r2.id, r2)]⟩ } = _
      rw [hfold]
      simp [List.append_assoc]

/-- C1: the claim says `read(write(tree))` reproduces the station id, run
ids, channel component set and period range for ANY tree with at least one
run carrying `ex`/`ey`/`hx`/`hy`/`hz` channels and a non-zero impedance
matrix.  `tfZeroRate` is such a tree (one run, id `"a"`, all five
components, impedance `[1]`), but its run's sampling rate is `0`, so the
read direction skips its field-notes record as a placeholder
(`if fn.sampling_rate in [0, None]: continue`) and the returned station
has no runs at all. -/
theorem c1_counterexample :
    tfZeroRate.station.runs.keys = [some "a"]
      ∧ (∀ r ∈ tfZeroRate.station.runs.values,
          r.channels.map (·.component)
            = [some "ex", some "hx", some "hy", some "hz", some "ey"])
      ∧ tfZeroRate.has_impedance = true
      ∧ (roundTrip tfZeroRate).map (fun res => res.station.runs.keys)
          = Except.ok [] := by
  refine ⟨rfl, by decide, rfl, rfl⟩

/-- C1 (amended): for a tree whose runs all have a usable (non-`0`,
non-`None`) sampling rate, exactly the five standard components with
electric `ex`/`ey` and a fluxgate NIMS/LEMI sensor on `hx` (the
single-magnetometer triaxial write path), whose run collection is keyed by
pairwise-distinct run ids, and whose period axis is non-empty,
`read(write(tree))` succeeds and reproduces the station id, the run keys,
each run's id, sampling rate and channel component set (as a
permutation), the period axis, the impedance matrix (non-zero by
hypothesis, hence copied), and the period-range minimum and maximum
exactly. -/
theorem c1_roundtrip (tf : TFObject)
    (hkeys : ∀ p ∈ tf.station.runs.home, p.1 = p.2.id)
    (hnd : tf.station.runs.keys.Nodup)
    (hgood : ∀ r ∈ tf.station.runs.values, GoodRun r)
    (hper : tf.period ≠ [])
    (himp : tf.has_impedance = true) :
    ∃ res, roundTrip tf = .ok res
      ∧ res.station.id = tf.station.id
      ∧ res.station.runs.keys = tf.station.runs.keys
      ∧ List.Forall₂ (fun r r' => r'.id = r.id ∧ r'.sample_rate = r.sample_rate
            ∧ (r'.channels.map (·.component)).Perm (r.channels.map (·.component)))
          tf.station.runs.values res.station.runs.values
      ∧ res.period = tf.period ∧ res.z = tf.z
      ∧ res.period_range_min = pyMinQ tf.period
      ∧ res.period_range_max = pyMaxQ tf.period := by
  obtain ⟨fns, ins, outs, hwr, hgps, hnames⟩ :=
    writeRuns_good tf.station.runs.values hgood
  have hids : tf.station.runs.values.map (·.id) = tf.station.runs.keys := by
    rw [ListDict.values, ListDict.keys, List.map_map]
    exact List.map_congr_left (fun p hp => (hkeys p hp).symm)
  have hnd' : (tf.station.runs.values.map (·.id)).Nodup := by rw [hids]; exact hnd
  cases hp : tf.period with
  | nil => exact absurd hp hper
  | cons p ps =>
      have hws : writeStationMetadata tf.station
          = .ok { site_id := tf.station.id,
                  site_start := some tf.station.time_period.start,
                  site_stop := some tf.station.time_period.stop,
                  field_notes := fns, input_channels := ins,
                  output_channels := outs } := by
        unfold writeStationMetadata
        simp only [hwr]
      have hwrite : write_emtfxml tf = .ok
          { site_id := tf.station.id,
            site_start := some tf.station.time_period.start,
            site_stop := some tf.station.time_period.stop,
            field_notes := fns, input_channels := ins, output_channels := outs,
            data := { period := p :: ps, z := tf.z,
                      t := if tf.has_tipper then tf.t else none },
            period_range_min := some (ps.foldl min p),
            period_range_max := some (ps.foldl max p) } := by
        unfold write_emtfxml
        simp [hws, hp, himp, pyMinQ, pyMaxQ]
      obtain ⟨rs', hfold, hpairs'⟩ :=
        read_fold_ok tf.station.runs.values fns (ins ++ outs) hnames hgps hgood hnd'
          { id := tf.station.id,
            time_period := { start := tf.station.time_period.start,
                             stop := tf.station.time_period.stop } }
          (by intro r hr; simp [ListDict.keys])
      have hreadSM : readStationMetadata
          { site_id := tf.station.id,
            site_start := some tf.station.time_period.start,
            site_stop := some tf.station.time_period.stop,
            field_notes := fns, input_channels := ins, output_channels := outs,
            data := { period := p :: ps, z := tf.z,
                      t := if tf.has_tipper then tf.t else none },
            period_range_min := some (ps.foldl min p),
            period_range_max := some (ps.foldl max p) }
          = .ok { id := tf.station.id,
                  time_period := { start := tf.station.time_period.start,
                                   stop := tf.station.time_period.stop },
                  runs := ⟨rs'.map (fun r => (r.id, r))⟩ } := by
        unfold readStationMetadata
        exact hfold
      have hread : read_emtfxml
          { site_id := tf.station.id,
            site_start := some tf.station.time_period.start,
            site_stop := some tf.station.time_period.stop,
            field_notes := fns, input_channels := ins, output_channels := outs,
            data := { period := p :: ps, z := tf.z,
                      t := if tf.has_tipper then tf.t else none },
            period_range_min := some (ps.foldl min p),
            period_range_max := some (ps.foldl max p) }
          = .ok { station :=
                    { id := tf.station.id,
                      time_period := { start := tf.station.time_period.start,
                                       stop := tf.station.time_period.stop },
                      runs := ⟨rs'.map (fun r => (r.id, r))⟩ },
                  period := p :: ps, z := tf.z,
                  period_range_min := some (ps.foldl min p),
                  period_range_max := some (ps.foldl max p) } := by
        unfold read_emtfxml
        simp [pyMinQ, pyMaxQ, hreadSM]
      refine ⟨{ station :=
                  { id := tf.station.id,
                    time_period := { start := tf.station.time_period.start,
                                     stop := tf.station.time_period.stop },
                    runs := ⟨rs'.map (fun r => (r.id, r))⟩ },
                period := p :: ps, z := tf.z,
                period_range_min := some (ps.foldl min p),
                period_range_max := some (ps.foldl max p) },
        ?_, rfl, ?_, ?_, rfl, rfl, rfl, rfl⟩
      · unfold roundTrip
        rw [hwrite]
        exact hread
      · show (rs'.map (fun r => (r.id, r))).map Prod.fst = tf.station.runs.keys
        rw [← hids, List.map_map]
        exact forall2_id_map _ _ hpairs'
      · have hval : (ListDict.values ⟨rs'.map (fun r => (r.id, r))⟩) = rs' := by
          have hcomp : (Prod.snd ∘ fun r : Run => (r.id, r)) = id := rfl
          rw [ListDict.values, List.map_map, hcomp, List.map_id]
        show List.Forall₂ _ tf.station.runs.values
          (ListDict.values ⟨rs'.map (fun r => (r.id, r))⟩)
        rw [hval]
        exact forall2_perm_of_eq _ _ hpairs' hgood

/-- Witness for `c1_roundtrip`: the concrete good tree `tfGood` (one
fully-recorded run, id `"a"`, fluxgate NIMS sensor, periods `[1, 10]`,
impedance `[1, 0, 0, 0]`) round-trips. -/
theorem c1_roundtrip_witness :
    ∃ res, roundTrip tfGood = .ok res
      ∧ res.station.id = tfGood.station.id
      ∧ res.station.runs.keys = tfGood.station.runs.keys
      ∧ List.Forall₂ (fun r r' => r'.id = r.id ∧ r'.sample_rate = r.sample_rate
            ∧ (r'.channels.map (·.component)).Perm (r.channels.map (·.component)))
          tfGood.station.runs.values res.station.runs.values
      ∧ res.period = tfGood.period ∧ res.z = tfGood.z
      ∧ res.period_range_min = pyMinQ tfGood.period
      ∧ res.period_range_max = pyMaxQ tfGood.period :=
  c1_roundtrip tfGood (by decide) (by decide)
    (by
      intro r hr
      have hr' : r = runGood := by
        simpa [tfGood, stGood, ListDict.values] using hr
      subst hr'
      exact ⟨by decide, by decide, by decide, by decide, by decide⟩)
    (by simp [tfGood]) (by decide)

end MtMeta
